import Mathlib

/-!
Verification of the ledger & allocation engine of a subscription-selling bot
(sources: `db.py`, `main.py`).  Python integers are modelled by `ℤ` (or `ℕ`
where the quantity is a row count / primary key), Python floor division `//`
and `%` by `Int.fdiv` / `Int.fmod`, SQL tables by lists or maps, and the one
floating-point computation (`int(amount * REF_PERCENT)`) by exact dyadic
rational arithmetic over `ℕ`.
-/

/-! ## Calendar arithmetic (`main.py`, `gregorian_to_jalali`,
`jalali_to_gregorian`, `jalali_month_days`, `add_months_shamsi`) -/

/-- `g_d_m[gm - 1]` lookup table of `gregorian_to_jalali`. -/
def gdm (gm : ℤ) : ℤ :=
  if gm = 1 then 0 else if gm = 2 then 31 else if gm = 3 then 59
  else if gm = 4 then 90 else if gm = 5 then 120 else if gm = 6 then 151
  else if gm = 7 then 181 else if gm = 8 then 212 else if gm = 9 then 243
  else if gm = 10 then 273 else if gm = 11 then 304 else 334

/-- `main.py` lines 153-189, `gregorian_to_jalali(gy, gm, gd)`. -/
def gregorian_to_jalali (gy0 gm gd : ℤ) : ℤ × ℤ × ℤ :=
  let jy0 : ℤ := if gy0 > 1600 then 979 else 0
  let gy : ℤ := if gy0 > 1600 then gy0 - 1600 else gy0 - 621
  let gy2 : ℤ := if gm > 2 then gy + 1 else gy
  let days : ℤ :=
    365 * gy + (gy2 + 3).fdiv 4 - (gy2 + 99).fdiv 100 + (gy2 + 399).fdiv 400
      - 80 + gd + gdm gm
  let jy1 : ℤ := jy0 + 33 * (days.fdiv 12053)
  let days1 : ℤ := days.fmod 12053
  let jy2 : ℤ := jy1 + 4 * (days1.fdiv 1461)
  let days2 : ℤ := days1.fmod 1461
  let jy3 : ℤ := if days2 > 365 then jy2 + (days2 - 1).fdiv 365 else jy2
  let days3 : ℤ := if days2 > 365 then (days2 - 1).fmod 365 else days2
  if days3 < 186 then
    (jy3, 1 + days3.fdiv 31, 1 + days3.fmod 31)
  else
    (jy3, 7 + (days3 - 186).fdiv 30, 1 + (days3 - 186).fmod 30)

/-- The `sal_a` month-length table of `jalali_to_gregorian` (index 1..12);
`leap` tells whether entry 2 is 29 (leap February) or 28. -/
def sal_a (leap : Bool) (i : ℤ) : ℤ :=
  if i = 1 then 31 else if i = 2 then (if leap then 29 else 28)
  else if i = 3 then 31 else if i = 4 then 30 else if i = 5 then 31
  else if i = 6 then 30 else if i = 7 then 31 else if i = 8 then 31
  else if i = 9 then 30 else if i = 10 then 31 else if i = 11 then 30 else 31

/-- The `while gm <= 12 and gd > sal_a[gm]` loop of `jalali_to_gregorian`;
`fuel = 12` suffices since `gm` starts at 1 and grows each iteration. -/
def monthLoop : ℕ → Bool → ℤ → ℤ → ℤ × ℤ
  | 0, _, gm, gd => (gm, gd)
  | fuel + 1, leap, gm, gd =>
    if gm ≤ 12 ∧ gd > sal_a leap gm then
      monthLoop fuel leap (gm + 1) (gd - sal_a leap gm)
    else (gm, gd)

/-- `main.py` lines 192-229, `jalali_to_gregorian(jy, jm, jd)`. -/
def jalali_to_gregorian (jy0 jm jd : ℤ) : ℤ × ℤ × ℤ :=
  let jy : ℤ := jy0 + 1595
  let days0 : ℤ := -355668 + 365 * jy + (jy.fdiv 33) * 8 + ((jy.fmod 33) + 3).fdiv 4 + jd
  let days1 : ℤ := if jm < 7 then days0 + (jm - 1) * 31 else days0 + (jm - 7) * 30 + 186
  let gy0 : ℤ := 400 * (days1.fdiv 146097)
  let days2 : ℤ := days1.fmod 146097
  let gy1 : ℤ := if days2 > 36524 then gy0 + 100 * ((days2 - 1).fdiv 36524) else gy0
  let days3 : ℤ :=
    if days2 > 36524 then
      (if (days2 - 1).fmod 36524 ≥ 365 then (days2 - 1).fmod 36524 + 1
       else (days2 - 1).fmod 36524)
    else days2
  let gy2 : ℤ := gy1 + 4 * (days3.fdiv 1461)
  let days4 : ℤ := days3.fmod 1461
  let gy3 : ℤ := if days4 > 365 then gy2 + (days4 - 1).fdiv 365 else gy2
  let days5 : ℤ := if days4 > 365 then (days4 - 1).fmod 365 else days4
  let gd : ℤ := days5 + 1
  let leap : Bool := decide ((gy3.fmod 4 = 0 ∧ gy3.fmod 100 ≠ 0) ∨ gy3.fmod 400 = 0)
  let p := monthLoop 12 leap 1 gd
  (gy3, p.1, p.2)

/-- `main.py` lines 232-240, `jalali_month_days(jy, jm)`. -/
def jalali_month_days (jy jm : ℤ) : ℤ :=
  if jm ≤ 6 then 31
  else if jm ≤ 11 then 30
  else
    let a := jy - 474
    let b := a.fmod 2820 + 474
    if ((b + 38) * 682).fmod 2816 < 682 then 30 else 29

/-- Gregorian leap test `(gy%4==0 and gy%100!=0) or (gy%400==0)`. -/
def gregLeap (gy : ℤ) : Bool :=
  decide ((gy.fmod 4 = 0 ∧ gy.fmod 100 ≠ 0) ∨ gy.fmod 400 = 0)

/-- Number of days of Gregorian month `gm` of year `gy` (the `sal_a` table of
the source, used here to delimit the set of valid Gregorian dates). -/
def gregorian_month_days (gy gm : ℤ) : ℤ := sal_a (gregLeap gy) gm

/-- Python `datetime` restricted to its date and time fields. -/
structure PyDateTime where
  year : ℤ
  month : ℤ
  day : ℤ
  hour : ℤ
  minute : ℤ
  second : ℤ
deriving DecidableEq, Repr

/-- Python `datetime` comparison (`<`): lexicographic on the fields. -/
def dtLtB (a b : PyDateTime) : Bool :=
  if a.year ≠ b.year then decide (a.year < b.year)
  else if a.month ≠ b.month then decide (a.month < b.month)
  else if a.day ≠ b.day then decide (a.day < b.day)
  else if a.hour ≠ b.hour then decide (a.hour < b.hour)
  else if a.minute ≠ b.minute then decide (a.minute < b.minute)
  else decide (a.second < b.second)

/-- Successor date (used for the day carry of `+ timedelta(hours=3, minutes=30)`). -/
def nextDay (y m d : ℤ) : ℤ × ℤ × ℤ :=
  if d < gregorian_month_days y m then (y, m, d + 1)
  else if m < 12 then (y, m + 1, 1)
  else (y + 1, 1, 1)

/-- Predecessor date (used for the day borrow of `- timedelta(hours=3, minutes=30)`). -/
def prevDay (y m d : ℤ) : ℤ × ℤ × ℤ :=
  if d > 1 then (y, m, d - 1)
  else if m > 1 then (y, m - 1, gregorian_month_days y (m - 1))
  else (y - 1, 12, 31)

/-- `main.py` `to_iran(dt_utc) = dt_utc + IRAN_OFFSET` with
`IRAN_OFFSET = timedelta(hours=3, minutes=30)`. -/
def to_iran (dt : PyDateTime) : PyDateTime :=
  let mins := dt.hour * 60 + dt.minute + 210
  if mins < 1440 then
    { dt with hour := mins.fdiv 60, minute := mins.fmod 60 }
  else
    let p := nextDay dt.year dt.month dt.day
    { dt with year := p.1, month := p.2.1, day := p.2.2,
              hour := (mins - 1440).fdiv 60, minute := (mins - 1440).fmod 60 }

/-- `main.py` `from_iran(dt_iran) = dt_iran - IRAN_OFFSET`. -/
def from_iran (dt : PyDateTime) : PyDateTime :=
  let mins := dt.hour * 60 + dt.minute - 210
  if 0 ≤ mins then
    { dt with hour := mins.fdiv 60, minute := mins.fmod 60 }
  else
    let p := prevDay dt.year dt.month dt.day
    { dt with year := p.1, month := p.2.1, day := p.2.2,
              hour := (mins + 1440).fdiv 60, minute := (mins + 1440).fmod 60 }

/-- `main.py` lines 243-254, `add_months_shamsi(dt, months)`. -/
def add_months_shamsi (dt : PyDateTime) (months : ℤ) : PyDateTime :=
  match gregorian_to_jalali dt.year dt.month dt.day with
  | (jy, jm, jd) =>
    let total := (jm - 1) + months
    let new_jy := jy + total.fdiv 12
    let new_jm := total.fmod 12 + 1
    let max_day := jalali_month_days new_jy new_jm
    let new_jd := min jd max_day
    match jalali_to_gregorian new_jy new_jm new_jd with
    | (gy, gm, gd) => { dt with year := gy, month := gm, day := gd }

/-! ## Wallet ledger (`db.py`, `add_wallet_balance`, `try_deduct_wallet`).
The `wallets` table is a total map `ℤ → ℤ` (a missing row reads as balance 0,
exactly as `get_wallet_balance` returns 0 for a missing row, and the
`INSERT ... ON CONFLICT DO NOTHING` row-creation writes balance 0). -/

/-- `db.py` lines 220-230: unconditionally adds `amount` and returns the
re-selected balance, paired with the updated table. -/
def add_wallet_balance (user amount : ℤ) (w : ℤ → ℤ) : ℤ × (ℤ → ℤ) :=
  let w' : ℤ → ℤ := fun x => if x = user then w user + amount else w x
  (w' user, w')

/-- `db.py` lines 233-247: reads the balance, fails leaving the table
untouched when `bal < amount`, else subtracts and returns the new balance. -/
def try_deduct_wallet (user amount : ℤ) (w : ℤ → ℤ) : (Bool × ℤ) × (ℤ → ℤ) :=
  let bal := w user
  if bal < amount then ((false, bal), w)
  else
    let w' : ℤ → ℤ := fun x => if x = user then w user - amount else w x
    ((true, w' user), w')

/-- One wallet-ledger call: a credit (`add_wallet_balance`) or a debit attempt
(`try_deduct_wallet`). -/
inductive WalletOp where
  | credit (amount : ℤ)
  | debit (amount : ℤ)
deriving DecidableEq, Repr

/-- The amount carried by a wallet operation. -/
def WalletOp.amount : WalletOp → ℤ
  | .credit a => a
  | .debit a => a

/-- Run a sequence of wallet calls against the wallets table. -/
def runWallet (user : ℤ) : List WalletOp → (ℤ → ℤ) → (ℤ → ℤ)
  | [], w => w
  | .credit a :: rest, w => runWallet user rest (add_wallet_balance user a w).2
  | .debit a :: rest, w => runWallet user rest (try_deduct_wallet user a w).2

/-- Sum of all credited amounts of a call sequence. -/
def creditTotal : List WalletOp → ℤ
  | [] => 0
  | .credit a :: rest => a + creditTotal rest
  | .debit _ :: rest => creditTotal rest

/-- Sum of the amounts of the debits that succeed when the sequence is run
from table `w`. -/
def debitSuccessTotal (user : ℤ) : List WalletOp → (ℤ → ℤ) → ℤ
  | [], _ => 0
  | .credit a :: rest, w => debitSuccessTotal user rest (add_wallet_balance user a w).2
  | .debit a :: rest, w =>
    (if (try_deduct_wallet user a w).1.1 then a else 0)
      + debitSuccessTotal user rest (try_deduct_wallet user a w).2

/-! ## Referral commission — exact model of `int(amount * REF_PERCENT)`
(`main.py` line 720, with `REF_PERCENT = 0.15`).

The IEEE-754 binary64 value of the literal `0.15` is exactly
`5404319552844595 / 2^55`.  `amount * REF_PERCENT` first rounds the integer
`amount` to a double (round to nearest, ties to even, i.e. to 53 significant
bits), multiplies exactly, and rounds the product to a double again; `int`
then truncates (floors, as everything is nonnegative).  All quantities
involved are dyadic rationals with denominator `2^55`, so the whole
computation is the ℕ-arithmetic below.  (Valid for every amount small enough
not to overflow a double, far beyond any bound used here.) -/

/-- Numerator of the exact binary64 value of the Python literal `0.15`:
`0.15 : float = refPercentNum / 2^55`. -/
def refPercentNum : ℕ := 5404319552844595

/-- Fuel-driven floor base-2 logarithm (kernel-computable; agrees with
`Nat.log2`, see `log2e_eq`). -/
def bitlenAux : ℕ → ℕ → ℕ
  | 0, _ => 0
  | fuel + 1, n => if n ≤ 1 then 0 else bitlenAux fuel (n / 2) + 1

/-- Floor base-2 logarithm. -/
def log2e (n : ℕ) : ℕ := bitlenAux n n

/-- Round a nonnegative integer to 53 significant bits, round-to-nearest,
ties to even — the rounding step of IEEE-754 binary64 arithmetic. -/
def roundSig (M : ℕ) : ℕ :=
  if M < 2 ^ 53 then M
  else
    let k := log2e M - 52
    let q := M / 2 ^ k
    let r := M % 2 ^ k
    let half := 2 ^ (k - 1)
    (if half < r ∨ (r = half ∧ q % 2 = 1) then q + 1 else q) * 2 ^ k

/-- Exact value of the Python expression `int(amount * REF_PERCENT)` for a
nonnegative integer `amount` (`main.py` line 720). -/
def floatProfit (amount : ℕ) : ℕ :=
  roundSig (roundSig amount * refPercentNum) / 2 ^ 55

/-! ## Deposit request state machine (`db.py` deposit helpers; `main.py`
`deposit_approve` lines 698-747 and `deposit_reject` lines 750-778, with the
chat-transport calls stripped: per the spec they are fire-and-forget and
touch no engine state). -/

/-- A `deposit_requests` row (the fields the engine reads). -/
structure DepositRow where
  user_id : ℤ
  amount : ℕ
  status : String
deriving DecidableEq, Repr

/-- The store rows the deposit flow touches: deposits by id, wallets,
`users.referrer_id`, and `referral_profits.total_profit` by referrer. -/
structure BankDB where
  deposits : ℤ → Option DepositRow
  wallets : ℤ → ℤ
  referrer : ℤ → Option ℤ
  ref_profits : ℤ → ℤ

/-- `db.py` `set_deposit_status`: `UPDATE deposit_requests SET status=? WHERE id=?`. -/
def set_deposit_status (dep_id : ℤ) (st : String) (db : BankDB) : BankDB :=
  { db with deposits := fun x =>
      if x = dep_id then (db.deposits x).map (fun d => { d with status := st })
      else db.deposits x }

/-- `db.py` `add_ref_profit`: upsert-accumulate into `referral_profits`. -/
def add_ref_profit (r : ℤ) (p : ℤ) (db : BankDB) : BankDB :=
  { db with ref_profits := fun x => if x = r then db.ref_profits r + p else db.ref_profits x }

/-- `main.py` `deposit_approve` (engine part): re-check `pending_admin`,
set status `approved`, credit the owner, then run the referral cascade.
Returns `false` (".. not actionable") without touching the store when the
deposit is missing or no longer pending. -/
def deposit_approve (dep_id : ℤ) (db : BankDB) : Bool × BankDB :=
  match db.deposits dep_id with
  | none => (false, db)
  | some dep =>
    if dep.status = "pending_admin" then
      let db1 := set_deposit_status dep_id "approved" db
      let db2 := { db1 with wallets := (add_wallet_balance dep.user_id (dep.amount : ℤ) db1.wallets).2 }
      match db2.referrer dep.user_id with
      | none => (true, db2)
      | some r =>
        if r ≠ 0 ∧ r ≠ dep.user_id then
          let profit := floatProfit dep.amount
          if 0 < profit then
            let db3 := { db2 with wallets := (add_wallet_balance r (profit : ℤ) db2.wallets).2 }
            (true, add_ref_profit r (profit : ℤ) db3)
          else (true, db2)
        else (true, db2)
    else (false, db)

/-- `main.py` `deposit_reject` (engine part): re-check `pending_admin`, set
status `rejected`; no ledger effect.  Returns `false` without touching the
store when the deposit is missing or no longer pending. -/
def deposit_reject (dep_id : ℤ) (db : BankDB) : Bool × BankDB :=
  match db.deposits dep_id with
  | none => (false, db)
  | some dep =>
    if dep.status = "pending_admin" then (true, set_deposit_status dep_id "rejected" db)
    else (false, db)

/-! ## Link pool and orders (`db.py` links/orders helpers; `main.py`
`admin_links_fulfill` lines 1277-1306). -/

/-- A `links` row. -/
structure LinkRow where
  id : ℕ
  link : String
  is_used : Bool
  used_by_order_id : Option ℕ
  used_by_user_id : Option ℕ
deriving DecidableEq, Repr

/-- An `orders` row (the fields the allocator touches). -/
structure OrderRow where
  id : ℕ
  user_id : ℕ
  status : String
  delivered_link : Option String
deriving DecidableEq, Repr

/-- The store rows the allocator touches. -/
structure PoolDB where
  links : List LinkRow
  orders : List OrderRow
deriving DecidableEq, Repr

/-- `SELECT id, link FROM links WHERE is_used=0 ORDER BY id ASC LIMIT 1`:
the unused row of smallest id, if any. -/
def selectMinUnused (ls : List LinkRow) : Option LinkRow :=
  ls.foldl (fun acc l =>
    if l.is_used then acc
    else
      match acc with
      | none => some l
      | some m => if l.id < m.id then some l else some m) none

/-- `db.py` lines 620-657, `pop_available_link_for_order(order_id, user_id)`:
atomically pick the smallest-id unused link, mark it used and assigned, and
mark the order delivered with it; `none` and no change when the pool is empty. -/
def pop_available_link_for_order (order_id user_id : ℕ) (db : PoolDB) :
    Option String × PoolDB :=
  match selectMinUnused db.links with
  | none => (none, db)
  | some row =>
    let links' := db.links.map fun l =>
      if l.id = row.id then
        { l with is_used := true, used_by_order_id := some order_id,
                 used_by_user_id := some user_id }
      else l
    let orders' := db.orders.map fun o =>
      if o.id = order_id then
        { o with status := "delivered", delivered_link := some row.link }
      else o
    (some row.link, { links := links', orders := orders' })

/-- `db.py` `set_order_delivered(order_id, delivered_link)`. -/
def set_order_delivered (order_id : ℕ) (lnk : String) (db : PoolDB) : PoolDB :=
  { db with orders := db.orders.map fun o =>
      if o.id = order_id then { o with status := "delivered", delivered_link := some lnk }
      else o }

/-- `db.py` `list_pending_orders(limit)`: pending orders by ascending id,
truncated to `limit` (the orders list is kept in id order, see the sortedness
hypotheses of the theorems). -/
def list_pending_orders (limit : ℕ) (db : PoolDB) : List OrderRow :=
  (db.orders.filter fun o => o.status = "paid_waiting_link").take limit

/-- The loop body of `main.py` `admin_links_fulfill`: allocate for each
pending order, breaking as soon as the pool is exhausted; counts deliveries. -/
def fulfillLoop : List OrderRow → PoolDB → ℕ → ℕ × PoolDB
  | [], db, sent => (sent, db)
  | o :: rest, db, sent =>
    match pop_available_link_for_order o.id o.user_id db with
    | (none, db') => (sent, db')
    | (some lnk, db') => fulfillLoop rest (set_order_delivered o.id lnk db') (sent + 1)

/-- `main.py` lines 1277-1306, `admin_links_fulfill` (engine part): snapshot
`list_pending_orders(50)` and run the allocation loop over it. -/
def admin_links_fulfill (db : PoolDB) : ℕ × PoolDB :=
  fulfillLoop (list_pending_orders 50 db) db 0

/-- Number of unused links (`count_links().available`). -/
def countAvailableLinks (db : PoolDB) : ℕ :=
  (db.links.filter fun l => !l.is_used).length

/-- Number of orders in status `paid_waiting_link`. -/
def countPendingOrders (db : PoolDB) : ℕ :=
  (db.orders.filter fun o => o.status = "paid_waiting_link").length

/-- Run a sequence of `pop_available_link_for_order` calls, collecting the
returned tokens. -/
def runAllocSeq : List (ℕ × ℕ) → PoolDB → List String × PoolDB
  | [], db => ([], db)
  | c :: rest, db =>
    match pop_available_link_for_order c.1 c.2 db with
    | (none, db') => runAllocSeq rest db'
    | (some lnk, db') =>
      let p := runAllocSeq rest db'
      (lnk :: p.1, p.2)

/-- Largest id present in the links table (0 when empty); `AUTOINCREMENT`
hands out `maxLinkId + 1`. -/
def maxLinkId (ls : List LinkRow) : ℕ := ls.foldl (fun a l => max a l.id) 0

/-- A freshly inserted, unused link row. -/
def newLinkRow (i : ℕ) (v : String) : LinkRow := ⟨i, v, false, none, none⟩

/-- `db.py` lines 569-585, `add_links(links)`: strip each value, skip empties,
insert non-duplicates (the `UNIQUE` constraint rejects a value already in the
table, including one inserted earlier in the same call), count insertions. -/
def add_links (vals : List String) (ls : List LinkRow) : ℕ × List LinkRow :=
  match vals with
  | [] => (0, ls)
  | v :: rest =>
    let s := v.trim
    if s = "" then add_links rest ls
    else if ls.any (fun l => l.link = s) then add_links rest ls
    else
      let p := add_links rest (ls ++ [newLinkRow (maxLinkId ls + 1) s])
      (p.1 + 1, p.2)

/-! ## Subscription upsert and renewal base (`db.py` `set_subscription`
lines 469-482; `main.py` `confirm_purchase` lines 833-844). -/

/-- A `subscriptions` row. -/
structure SubRow where
  expires_at : PyDateTime
  reminded_before_expiry : Bool
  notified_expired : Bool
deriving DecidableEq, Repr

/-- `db.py` `set_subscription`: upsert the expiry and reset both one-shot
notification flags to false. -/
def set_subscription (user : ℤ) (e : PyDateTime) (subs : ℤ → Option SubRow) :
    ℤ → Option SubRow :=
  fun x => if x = user then some ⟨e, false, false⟩ else subs x

/-- `main.py` lines 834-838: the renewal base is the current expiry when it is
strictly in the future, else now. -/
def renewalBase (sub : Option SubRow) (now : PyDateTime) : PyDateTime :=
  match sub with
  | none => now
  | some s => if dtLtB now s.expires_at then s.expires_at else now

/-- `main.py` lines 840-842: the stored new expiry of a purchase of
`months` months. -/
def confirm_purchase_new_expiry (sub : Option SubRow) (now : PyDateTime)
    (months : ℤ) : PyDateTime :=
  from_iran (add_months_shamsi (to_iran (renewalBase sub now)) months)

/-! ## Exhaustive calendar round-trip checker (for the supported date range). -/

/-- One date round-trips through the civil calendar. -/
def roundTripOK (gy gm gd : ℤ) : Bool :=
  let j := gregorian_to_jalali gy gm gd
  decide (jalali_to_gregorian j.1 j.2.1 j.2.2 = (gy, gm, gd))

/-- All days `1..n` of a month round-trip. -/
def checkDays (gy gm : ℤ) : ℕ → Bool
  | 0 => true
  | d + 1 => roundTripOK gy gm ((d : ℤ) + 1) && checkDays gy gm d

/-- All days of months `1..m` of a year round-trip. -/
def checkMonths (gy : ℤ) : ℕ → Bool
  | 0 => true
  | m + 1 =>
    checkDays gy ((m : ℤ) + 1) (gregorian_month_days gy ((m : ℤ) + 1)).toNat
      && checkMonths gy m

/-- All dates of the `n` Gregorian years `lo, lo+1, …, lo+n-1` round-trip. -/
def checkYears (lo : ℤ) : ℕ → Bool
  | 0 => true
  | y + 1 => checkMonths (lo + (y : ℤ)) 12 && checkYears lo y

/-! # Theorems -/

/-! ## C2: `try_deduct_wallet` -/

/-- C2.  For every user and every amount > 0, `try_deduct_wallet` succeeds
iff the current balance `b` satisfies `b ≥ amount`; on success it returns
`(true, b - amount)` and stores `b - amount` (no other user's balance
changing); on failure it returns `(false, b)` and the table is unchanged. -/
theorem c2_try_deduct_spec (user amount : ℤ) (w : ℤ → ℤ) (hpos : 0 < amount) :
    ((try_deduct_wallet user amount w).1.1 = true ↔ amount ≤ w user)
    ∧ (amount ≤ w user →
        (try_deduct_wallet user amount w).1 = (true, w user - amount)
        ∧ (try_deduct_wallet user amount w).2 user = w user - amount
        ∧ ∀ x, x ≠ user → (try_deduct_wallet user amount w).2 x = w x)
    ∧ (w user < amount →
        (try_deduct_wallet user amount w).1 = (false, w user)
        ∧ (try_deduct_wallet user amount w).2 = w) := by
  by_cases h : w user < amount
  · refine ⟨?_, fun hle => absurd hle (not_le.mpr h), fun _ => ⟨?_, ?_⟩⟩
    · simp only [try_deduct_wallet, if_pos h]
      simpa using not_le.mpr h
    · simp [try_deduct_wallet, h]
    · simp [try_deduct_wallet, h]
  · refine ⟨?_, fun _ => ⟨?_, ?_, fun x hx => ?_⟩, fun hlt => absurd hlt h⟩
    · simp only [try_deduct_wallet, if_neg h]
      simpa using not_lt.mp h
    · simp [try_deduct_wallet, h]
    · simp [try_deduct_wallet, h]
    · simp [try_deduct_wallet, h, hx]

/-- Witness for C2 at `user = 1`, `amount = 5`, constant balance 7. -/
theorem c2_try_deduct_spec_witness :
    (0 : ℤ) < 5 ∧
    (((try_deduct_wallet 1 5 (fun _ => 7)).1.1 = true ↔ (5 : ℤ) ≤ (fun _ => (7 : ℤ)) 1)
    ∧ ((5 : ℤ) ≤ (fun _ => (7 : ℤ)) 1 →
        (try_deduct_wallet 1 5 (fun _ => 7)).1 = (true, (fun _ => (7 : ℤ)) 1 - 5)
        ∧ (try_deduct_wallet 1 5 (fun _ => 7)).2 1 = (fun _ => (7 : ℤ)) 1 - 5
        ∧ ∀ x, x ≠ 1 → (try_deduct_wallet 1 5 (fun _ => 7)).2 x = (fun _ => (7 : ℤ)) x)
    ∧ ((fun _ => (7 : ℤ)) 1 < 5 →
        (try_deduct_wallet 1 5 (fun _ => 7)).1 = (false, (fun _ => (7 : ℤ)) 1)
        ∧ (try_deduct_wallet 1 5 (fun _ => 7)).2 = (fun _ => 7))) :=
  ⟨by decide, c2_try_deduct_spec 1 5 (fun _ => 7) (by decide)⟩

/-! ## C3: wallet sequences -/

/-- Accounting identity: running a call sequence moves the user's balance by
credited total minus successfully-debited total. -/
theorem runWallet_balance (user : ℤ) (ops : List WalletOp) (w : ℤ → ℤ) :
    runWallet user ops w user
      = w user + creditTotal ops - debitSuccessTotal user ops w := by
  induction ops generalizing w with
  | nil => simp [runWallet, creditTotal, debitSuccessTotal]
  | cons op rest ih =>
    cases op with
    | credit a =>
      rw [runWallet, creditTotal, debitSuccessTotal, ih]
      simp [add_wallet_balance]
      ring
    | debit a =>
      rw [runWallet, creditTotal, debitSuccessTotal, ih]
      unfold try_deduct_wallet
      by_cases h : w user < a
      · simp [h]
      · simp [h]
        ring

/-- Positivity invariant: positive amounts keep the balance nonnegative. -/
theorem runWallet_nonneg (user : ℤ) (ops : List WalletOp) (w : ℤ → ℤ)
    (hpos : ∀ op ∈ ops, 0 < op.amount) (h0 : 0 ≤ w user) :
    0 ≤ runWallet user ops w user := by
  induction ops generalizing w with
  | nil => simpa [runWallet] using h0
  | cons op rest ih =>
    cases op with
    | credit a =>
      rw [runWallet]
      refine ih _ (fun op h => hpos op (List.mem_cons_of_mem _ h)) ?_
      have ha : 0 < a := hpos (.credit a) (List.mem_cons_self _ _)
      simp [add_wallet_balance]
      omega
    | debit a =>
      rw [runWallet]
      refine ih _ (fun op h => hpos op (List.mem_cons_of_mem _ h)) ?_
      unfold try_deduct_wallet
      by_cases h : w user < a
      · simpa [h] using h0
      · simp [h]
        omega

/-- C3.  Starting from a fresh zero-balance wallet, for any sequence of
positive-amount credits and debit attempts: the balance is nonnegative after
every call (every prefix), and the final balance is the credited total minus
the total of the successful debits. -/
theorem c3_wallet_ledger_invariant (user : ℤ) (ops : List WalletOp)
    (hpos : ∀ op ∈ ops, 0 < op.amount) :
    (∀ k, 0 ≤ runWallet user (ops.take k) (fun _ => 0) user)
    ∧ runWallet user ops (fun _ => 0) user
        = creditTotal ops - debitSuccessTotal user ops (fun _ => 0) := by
  constructor
  · intro k
    refine runWallet_nonneg user (ops.take k) _ (fun op h => hpos op ?_) le_rfl
    exact List.mem_of_mem_take h
  · simpa using runWallet_balance user ops (fun _ => 0)

/-- Witness for C3 on the sequence credit 5, debit 3, debit 3 (the second
debit fails at balance 2). -/
theorem c3_wallet_ledger_invariant_witness :
    (∀ op ∈ [WalletOp.credit 5, WalletOp.debit 3, WalletOp.debit 3], 0 < op.amount)
    ∧ ((∀ k, 0 ≤ runWallet 1 ([WalletOp.credit 5, WalletOp.debit 3, WalletOp.debit 3].take k) (fun _ => 0) 1)
      ∧ runWallet 1 [WalletOp.credit 5, WalletOp.debit 3, WalletOp.debit 3] (fun _ => 0) 1
          = creditTotal [WalletOp.credit 5, WalletOp.debit 3, WalletOp.debit 3]
            - debitSuccessTotal 1 [WalletOp.credit 5, WalletOp.debit 3, WalletOp.debit 3] (fun _ => 0)) :=
  ⟨by decide, c3_wallet_ledger_invariant 1 _ (by decide)⟩

/-! ## C5: renewal base and subscription upsert -/

/-- C5.  A successful purchase of `m` months stores
`from_iran (add_months_shamsi (to_iran base) m)` where the base is the
current expiry when that expiry is strictly in the future and "now"
otherwise (subscription absent or expiry past); and the subscription row is
upserted with both notification flags reset to false. -/
theorem c5_renewal_spec (sub : Option SubRow) (now : PyDateTime) (months : ℤ)
    (subs : ℤ → Option SubRow) (user : ℤ) :
    (∀ s, sub = some s → dtLtB now s.expires_at = true →
        confirm_purchase_new_expiry sub now months
          = from_iran (add_months_shamsi (to_iran s.expires_at) months))
    ∧ (∀ s, sub = some s → dtLtB now s.expires_at = false →
        confirm_purchase_new_expiry sub now months
          = from_iran (add_months_shamsi (to_iran now) months))
    ∧ (sub = none →
        confirm_purchase_new_expiry sub now months
          = from_iran (add_months_shamsi (to_iran now) months))
    ∧ set_subscription user (confirm_purchase_new_expiry sub now months) subs user
        = some ⟨confirm_purchase_new_expiry sub now months, false, false⟩
    ∧ (∀ x, x ≠ user →
        set_subscription user (confirm_purchase_new_expiry sub now months) subs x
          = subs x) := by
  refine ⟨?_, ?_, ?_, ?_, ?_⟩
  · rintro s rfl h
    simp [confirm_purchase_new_expiry, renewalBase, h]
  · rintro s rfl h
    simp [confirm_purchase_new_expiry, renewalBase, h]
  · rintro rfl
    simp [confirm_purchase_new_expiry, renewalBase]
  · simp [set_subscription]
  · intro x hx
    simp [set_subscription, hx]

/-- Witness for C5: a subscription expiring 2025-01-01 00:00 renewed 2 months
on 2024-06-01 12:00. -/
theorem c5_renewal_spec_witness :
    ((∀ s, (some (⟨⟨2025, 1, 1, 0, 0, 0⟩, true, true⟩ : SubRow)) = some s →
        dtLtB ⟨2024, 6, 1, 12, 0, 0⟩ s.expires_at = true →
        confirm_purchase_new_expiry (some ⟨⟨2025, 1, 1, 0, 0, 0⟩, true, true⟩)
            ⟨2024, 6, 1, 12, 0, 0⟩ 2
          = from_iran (add_months_shamsi (to_iran s.expires_at) 2))
    ∧ (∀ s, (some (⟨⟨2025, 1, 1, 0, 0, 0⟩, true, true⟩ : SubRow)) = some s →
        dtLtB ⟨2024, 6, 1, 12, 0, 0⟩ s.expires_at = false →
        confirm_purchase_new_expiry (some ⟨⟨2025, 1, 1, 0, 0, 0⟩, true, true⟩)
            ⟨2024, 6, 1, 12, 0, 0⟩ 2
          = from_iran (add_months_shamsi (to_iran ⟨2024, 6, 1, 12, 0, 0⟩) 2))
    ∧ ((some (⟨⟨2025, 1, 1, 0, 0, 0⟩, true, true⟩ : SubRow)) = none →
        confirm_purchase_new_expiry (some ⟨⟨2025, 1, 1, 0, 0, 0⟩, true, true⟩)
            ⟨2024, 6, 1, 12, 0, 0⟩ 2
          = from_iran (add_months_shamsi (to_iran ⟨2024, 6, 1, 12, 0, 0⟩) 2))
    ∧ set_subscription 9
        (confirm_purchase_new_expiry (some ⟨⟨2025, 1, 1, 0, 0, 0⟩, true, true⟩)
          ⟨2024, 6, 1, 12, 0, 0⟩ 2) (fun _ => none) 9
        = some ⟨confirm_purchase_new_expiry (some ⟨⟨2025, 1, 1, 0, 0, 0⟩, true, true⟩)
            ⟨2024, 6, 1, 12, 0, 0⟩ 2, false, false⟩
    ∧ (∀ x, x ≠ 9 →
        set_subscription 9
          (confirm_purchase_new_expiry (some ⟨⟨2025, 1, 1, 0, 0, 0⟩, true, true⟩)
            ⟨2024, 6, 1, 12, 0, 0⟩ 2) (fun _ => none) x
          = (fun _ => none) x)) :=
  c5_renewal_spec (some ⟨⟨2025, 1, 1, 0, 0, 0⟩, true, true⟩) ⟨2024, 6, 1, 12, 0, 0⟩ 2
    (fun _ => none) 9

/-! ## C8: month addition in the civil calendar -/

/-- C8.  `add_months_shamsi` converts the date to the civil calendar, adds
`n` to the linearized month index `jm - 1` carrying years (floor division
and modulus by 12), clamps the day to the target month's length, converts
back, and keeps the time of day; in particular the clamped day never exceeds
the target month's length (it never rolls into the following month) and the
target month index stays in `1..12`. -/
theorem c8_add_months_spec (dt : PyDateTime) (n : ℤ) (hn : 0 ≤ n) :
    let j := gregorian_to_jalali dt.year dt.month dt.day
    let ty := j.1 + (j.2.1 - 1 + n).fdiv 12
    let tm := (j.2.1 - 1 + n).fmod 12 + 1
    let d := min j.2.2 (jalali_month_days ty tm)
    ((add_months_shamsi dt n).year, (add_months_shamsi dt n).month,
        (add_months_shamsi dt n).day)
      = jalali_to_gregorian ty tm d
    ∧ d ≤ jalali_month_days ty tm
    ∧ 1 ≤ tm ∧ tm ≤ 12
    ∧ (add_months_shamsi dt n).hour = dt.hour
    ∧ (add_months_shamsi dt n).minute = dt.minute
    ∧ (add_months_shamsi dt n).second = dt.second := by
  intro j ty tm d
  have hmod1 : 0 ≤ (j.2.1 - 1 + n).fmod 12 := by
    rw [Int.fmod_eq_emod _ (by norm_num)]
    exact Int.emod_nonneg _ (by norm_num)
  have hmod2 : (j.2.1 - 1 + n).fmod 12 < 12 := by
    rw [Int.fmod_eq_emod _ (by norm_num)]
    exact Int.emod_lt_of_pos _ (by norm_num)
  have hres : add_months_shamsi dt n
      = { dt with year := (jalali_to_gregorian ty tm d).1,
                  month := (jalali_to_gregorian ty tm d).2.1,
                  day := (jalali_to_gregorian ty tm d).2.2 } := by
    simp only [j, ty, tm, d]
    rcases hj : gregorian_to_jalali dt.year dt.month dt.day with ⟨jy, jm, jd⟩
    unfold add_months_shamsi
    rw [hj]
  refine ⟨?_, min_le_right _ _, by omega, by omega, ?_, ?_, ?_⟩ <;> rw [hres]

/-- Witness for C8: the civil date 1403-06-31 (= 2024-09-21, day 31 of the
31-day month 6) shifted one month clamps to 1403-07-30 (= 2024-10-21, month
7 has 30 days) — it does not roll into month 8. -/
theorem c8_add_months_spec_witness :
    (0 : ℤ) ≤ 1
    ∧ (let j := gregorian_to_jalali (2024 : ℤ) 9 21
       let ty := j.1 + (j.2.1 - 1 + 1).fdiv 12
       let tm := (j.2.1 - 1 + 1).fmod 12 + 1
       let d := min j.2.2 (jalali_month_days ty tm)
       ((add_months_shamsi ⟨2024, 9, 21, 10, 0, 0⟩ 1).year,
           (add_months_shamsi ⟨2024, 9, 21, 10, 0, 0⟩ 1).month,
           (add_months_shamsi ⟨2024, 9, 21, 10, 0, 0⟩ 1).day)
         = jalali_to_gregorian ty tm d
       ∧ d ≤ jalali_month_days ty tm
       ∧ 1 ≤ tm ∧ tm ≤ 12
       ∧ (add_months_shamsi ⟨2024, 9, 21, 10, 0, 0⟩ 1).hour = (10 : ℤ)
       ∧ (add_months_shamsi ⟨2024, 9, 21, 10, 0, 0⟩ 1).minute = (0 : ℤ)
       ∧ (add_months_shamsi ⟨2024, 9, 21, 10, 0, 0⟩ 1).second = (0 : ℤ))
    ∧ gregorian_to_jalali (2024 : ℤ) 9 21 = (1403, 6, 31)
    ∧ add_months_shamsi ⟨2024, 9, 21, 10, 0, 0⟩ 1 = ⟨2024, 10, 21, 10, 0, 0⟩
    ∧ gregorian_to_jalali (2024 : ℤ) 10 21 = (1403, 7, 30) :=
  ⟨by decide, c8_add_months_spec ⟨2024, 9, 21, 10, 0, 0⟩ 1 (by decide),
    by decide, by decide, by decide⟩

/-! ## C10: `add_links` -/

/-- C10.  `add_links` returns exactly the number of rows it inserts: the new
table is the old one plus `n` appended rows, every appended row is an unused
token whose value is the non-empty strip of some input value, every input
value that strips non-empty ends up stored (inserted now or already
present), and the unique-value constraint is preserved — so a value already
stored, or stripping equal to an earlier value of the same call, is not
counted again. -/
theorem c10_add_links_spec (vals : List String) (ls : List LinkRow) :
    ∃ new : List LinkRow,
      (add_links vals ls).2 = ls ++ new
      ∧ (add_links vals ls).1 = new.length
      ∧ (∀ r ∈ new, r.is_used = false ∧ r.link ≠ "" ∧ r.link ∈ vals.map String.trim)
      ∧ (∀ v ∈ vals, v.trim ≠ "" → v.trim ∈ (ls ++ new).map LinkRow.link)
      ∧ ((ls.map LinkRow.link).Nodup → ((ls ++ new).map LinkRow.link).Nodup) := by
  induction vals generalizing ls with
  | nil =>
    exact ⟨[], by simp [add_links]⟩
  | cons v rest ih =>
    by_cases hs : v.trim = ""
    · obtain ⟨new, h1, h2, h3, h4, h5⟩ := ih ls
      refine ⟨new, ?_, ?_, ?_, ?_, h5⟩
      · simpa [add_links, hs] using h1
      · simpa [add_links, hs] using h2
      · intro r hr
        refine ⟨(h3 r hr).1, (h3 r hr).2.1, List.mem_cons_of_mem _ (h3 r hr).2.2⟩
      · intro u hu hu'
        rcases List.mem_cons.mp hu with rfl | hu
        · exact absurd hs hu'
        · exact h4 u hu hu'
    · by_cases hdup : ls.any (fun l => l.link = v.trim) = true
      · obtain ⟨new, h1, h2, h3, h4, h5⟩ := ih ls
        refine ⟨new, ?_, ?_, ?_, ?_, h5⟩
        · simpa [add_links, hs, hdup] using h1
        · simpa [add_links, hs, hdup] using h2
        · intro r hr
          refine ⟨(h3 r hr).1, (h3 r hr).2.1, List.mem_cons_of_mem _ (h3 r hr).2.2⟩
        · intro u hu hu'
          rcases List.mem_cons.mp hu with rfl | hu
          · rcases List.any_eq_true.mp hdup with ⟨l, hl, hlv⟩
            have hl' : l.link = u.trim := by simpa using hlv
            exact List.mem_map.mpr ⟨l, List.mem_append_left _ hl, hl'⟩
          · exact h4 u hu hu'
      · have hnot : ∀ l ∈ ls, l.link ≠ v.trim := by
          intro l hl heq
          exact hdup (List.any_eq_true.mpr ⟨l, hl, by simp [heq]⟩)
        obtain ⟨new, h1, h2, h3, h4, h5⟩ :=
          ih (ls ++ [newLinkRow (maxLinkId ls + 1) v.trim])
        refine ⟨newLinkRow (maxLinkId ls + 1) v.trim :: new, ?_, ?_, ?_, ?_, ?_⟩
        · rw [show (add_links (v :: rest) ls).2
              = (add_links rest (ls ++ [newLinkRow (maxLinkId ls + 1) v.trim])).2 by
            simp [add_links, hs, hdup]]
          rw [h1, List.append_assoc, List.singleton_append]
        · rw [show (add_links (v :: rest) ls).1
              = (add_links rest (ls ++ [newLinkRow (maxLinkId ls + 1) v.trim])).1 + 1 by
            simp [add_links, hs, hdup]]
          rw [h2, List.length_cons]
        · intro r hr
          rcases List.mem_cons.mp hr with rfl | hr
          · exact ⟨rfl, hs, by simp [newLinkRow]⟩
          · refine ⟨(h3 r hr).1, (h3 r hr).2.1, List.mem_cons_of_mem _ (h3 r hr).2.2⟩
        · intro u hu hu'
          rcases List.mem_cons.mp hu with rfl | hu
          · exact List.mem_map.mpr
              ⟨_, List.mem_append_right _ (List.mem_cons_self _ _), rfl⟩
          · have h := h4 u hu hu'
            rw [List.append_assoc, List.singleton_append] at h
            exact h
        · intro hnd
          have hnd' : ((ls ++ [newLinkRow (maxLinkId ls + 1) v.trim]).map LinkRow.link).Nodup := by
            simp only [List.map_append, List.map_cons, List.map_nil]
            rw [List.nodup_append]
            refine ⟨hnd, List.nodup_singleton _, ?_⟩
            intro a ha hb
            simp only [List.mem_singleton] at hb
            rcases List.mem_map.mp ha with ⟨l, hl, rfl⟩
            exact hnot l hl (by simpa [newLinkRow] using hb)
          have h := h5 hnd'
          rw [List.append_assoc, List.singleton_append] at h
          exact h

/-! ## C1: the link allocator -/

/-- The fold step of `selectMinUnused`. -/
def selStep (acc : Option LinkRow) (l : LinkRow) : Option LinkRow :=
  if l.is_used then acc
  else
    match acc with
    | none => some l
    | some m => if l.id < m.id then some l else some m

theorem selectMinUnused_eq_fold (ls : List LinkRow) :
    selectMinUnused ls = ls.foldl selStep none := rfl

theorem selStep_fold_go (ls : List LinkRow) (acc : Option LinkRow) (row : LinkRow)
    (h : ls.foldl selStep acc = some row) :
    ((row ∈ ls ∧ row.is_used = false) ∨ acc = some row)
    ∧ (∀ x ∈ ls, x.is_used = false → row.id ≤ x.id)
    ∧ (∀ a, acc = some a → row.id ≤ a.id) := by
  induction ls generalizing acc with
  | nil =>
    simp only [List.foldl_nil] at h
    exact ⟨.inr h, by simp, fun a ha => by rw [ha] at h; cases h; exact le_rfl⟩
  | cons l ls ih =>
    rw [List.foldl_cons] at h
    by_cases hu : l.is_used
    · have hstep : selStep acc l = acc := by simp [selStep, hu]
      rw [hstep] at h
      obtain ⟨m1, m2, m3⟩ := ih acc h
      refine ⟨?_, ?_, m3⟩
      · rcases m1 with ⟨hm, hum⟩ | hm
        · exact .inl ⟨List.mem_cons_of_mem _ hm, hum⟩
        · exact .inr hm
      · intro x hx hxu
        rcases List.mem_cons.mp hx with rfl | hx
        · rw [hxu] at hu; simp at hu
        · exact m2 x hx hxu
    · have hu' : l.is_used = false := by simpa using hu
      cases hacc : acc with
      | none =>
        have hstep : selStep acc l = some l := by simp [selStep, hu', hacc]
        rw [hstep] at h
        obtain ⟨m1, m2, m3⟩ := ih (some l) h
        refine ⟨?_, ?_, ?_⟩
        · rcases m1 with ⟨hm, hum⟩ | hm
          · exact .inl ⟨List.mem_cons_of_mem _ hm, hum⟩
          · cases hm; exact .inl ⟨List.mem_cons_self _ _, hu'⟩
        · intro x hx hxu
          rcases List.mem_cons.mp hx with rfl | hx
          · exact m3 x rfl
          · exact m2 x hx hxu
        · intro a ha; simp [hacc] at ha
      | some m =>
        by_cases hlt : l.id < m.id
        · have hstep : selStep acc l = some l := by simp [selStep, hu', hacc, hlt]
          rw [hstep] at h
          obtain ⟨m1, m2, m3⟩ := ih (some l) h
          have hrl : row.id ≤ l.id := m3 l rfl
          refine ⟨?_, ?_, ?_⟩
          · rcases m1 with ⟨hm, hum⟩ | hm
            · exact .inl ⟨List.mem_cons_of_mem _ hm, hum⟩
            · cases hm; exact .inl ⟨List.mem_cons_self _ _, hu'⟩
          · intro x hx hxu
            rcases List.mem_cons.mp hx with rfl | hx
            · exact hrl
            · exact m2 x hx hxu
          · intro a ha
            have ha' : m = a := by simpa [hacc] using ha
            subst ha'
            exact le_trans hrl (le_of_lt hlt)
        · have hstep : selStep acc l = some m := by simp [selStep, hu', hacc, hlt]
          rw [hstep] at h
          obtain ⟨m1, m2, m3⟩ := ih (some m) h
          have hrm : row.id ≤ m.id := m3 m rfl
          refine ⟨?_, ?_, ?_⟩
          · rcases m1 with ⟨hm, hum⟩ | hm
            · exact .inl ⟨List.mem_cons_of_mem _ hm, hum⟩
            · exact .inr hm
          · intro x hx hxu
            rcases List.mem_cons.mp hx with rfl | hx
            · exact le_trans hrm (not_lt.mp hlt)
            · exact m2 x hx hxu
          · intro a ha
            have ha' : m = a := by simpa [hacc] using ha
            subst ha'
            exact hrm

/-- A successful selection is an unused pool row of minimal id. -/
theorem selectMinUnused_spec (ls : List LinkRow) (row : LinkRow)
    (h : selectMinUnused ls = some row) :
    row ∈ ls ∧ row.is_used = false ∧ ∀ x ∈ ls, x.is_used = false → row.id ≤ x.id := by
  rw [selectMinUnused_eq_fold] at h
  obtain ⟨m1, m2, _⟩ := selStep_fold_go ls none row h
  rcases m1 with ⟨hm, hum⟩ | hm
  · exact ⟨hm, hum, m2⟩
  · cases hm

theorem selStep_fold_all_used (ls : List LinkRow) (acc : Option LinkRow)
    (h : ∀ x ∈ ls, x.is_used = true) : ls.foldl selStep acc = acc := by
  induction ls generalizing acc with
  | nil => rfl
  | cons l ls ih =>
    rw [List.foldl_cons]
    have hstep : selStep acc l = acc := by simp [selStep, h l (List.mem_cons_self _ _)]
    rw [hstep]
    exact ih acc (fun x hx => h x (List.mem_cons_of_mem _ hx))

theorem selStep_fold_some (ls : List LinkRow) (a : LinkRow) :
    ls.foldl selStep (some a) ≠ none := by
  induction ls generalizing a with
  | nil => simp
  | cons l ls ih =>
    rw [List.foldl_cons]
    by_cases hu : l.is_used
    · simpa [selStep, hu] using ih a
    · have hu' : l.is_used = false := by simpa using hu
      by_cases hlt : l.id < a.id
      · simpa [selStep, hu', hlt] using ih l
      · simpa [selStep, hu', hlt] using ih a

/-- The selection is empty exactly when every pool row is used. -/
theorem selectMinUnused_eq_none_iff (ls : List LinkRow) :
    selectMinUnused ls = none ↔ ∀ x ∈ ls, x.is_used = true := by
  constructor
  · intro h
    induction ls with
    | nil => simp
    | cons l ls ih =>
      rw [selectMinUnused_eq_fold, List.foldl_cons] at h
      by_cases hu : l.is_used
      · have hstep : selStep none l = none := by simp [selStep, hu]
        rw [hstep] at h
        intro x hx
        rcases List.mem_cons.mp hx with rfl | hx
        · simpa using hu
        · exact ih (by rw [selectMinUnused_eq_fold]; exact h) x hx
      · have hu' : l.is_used = false := by simpa using hu
        have hstep : selStep none l = some l := by simp [selStep, hu']
        rw [hstep] at h
        exact absurd h (selStep_fold_some ls l)
  · intro h
    rw [selectMinUnused_eq_fold]
    exact selStep_fold_all_used ls none h

/-- The link-row update applied by a successful allocation. -/
def allocUpdate (oid uid rid : ℕ) (l : LinkRow) : LinkRow :=
  if l.id = rid then
    { l with is_used := true, used_by_order_id := some oid, used_by_user_id := some uid }
  else l

theorem pop_of_sel_none (oid uid : ℕ) (db : PoolDB)
    (h : selectMinUnused db.links = none) :
    pop_available_link_for_order oid uid db = (none, db) := by
  unfold pop_available_link_for_order
  rw [h]

theorem pop_of_sel_some (oid uid : ℕ) (db : PoolDB) (row : LinkRow)
    (h : selectMinUnused db.links = some row) :
    pop_available_link_for_order oid uid db
      = (some row.link,
         { links := db.links.map (allocUpdate oid uid row.id),
           orders := db.orders.map fun o =>
             if o.id = oid then
               { o with status := "delivered", delivered_link := some row.link }
             else o }) := by
  unfold pop_available_link_for_order
  rw [h]
  rfl

theorem allocUpdate_id (oid uid rid : ℕ) (l : LinkRow) :
    (allocUpdate oid uid rid l).id = l.id := by
  unfold allocUpdate
  split <;> rfl

theorem allocUpdate_link (oid uid rid : ℕ) (l : LinkRow) :
    (allocUpdate oid uid rid l).link = l.link := by
  unfold allocUpdate
  split <;> rfl

theorem map_allocUpdate_ids (oid uid rid : ℕ) (ls : List LinkRow) :
    (ls.map (allocUpdate oid uid rid)).map LinkRow.id = ls.map LinkRow.id := by
  rw [List.map_map]
  exact List.map_congr_left fun l _ => allocUpdate_id oid uid rid l

theorem map_allocUpdate_links (oid uid rid : ℕ) (ls : List LinkRow) :
    (ls.map (allocUpdate oid uid rid)).map LinkRow.link = ls.map LinkRow.link := by
  rw [List.map_map]
  exact List.map_congr_left fun l _ => allocUpdate_link oid uid rid l

/-- `pop_available_link_for_order` never changes the ids or the token values
of the pool. -/
theorem pop_preserves_maps (oid uid : ℕ) (db : PoolDB) :
    (pop_available_link_for_order oid uid db).2.links.map LinkRow.id
        = db.links.map LinkRow.id
    ∧ (pop_available_link_for_order oid uid db).2.links.map LinkRow.link
        = db.links.map LinkRow.link := by
  cases h : selectMinUnused db.links with
  | none => rw [pop_of_sel_none oid uid db h]; exact ⟨rfl, rfl⟩
  | some row =>
    rw [pop_of_sel_some oid uid db row h]
    exact ⟨map_allocUpdate_ids .., map_allocUpdate_links ..⟩

/-- A used row survives any allocation attempt untouched. -/
theorem pop_preserves_used (oid uid : ℕ) (db : PoolDB)
    (hid : (db.links.map LinkRow.id).Nodup)
    (x : LinkRow) (hx : x ∈ db.links) (hxu : x.is_used = true) :
    x ∈ (pop_available_link_for_order oid uid db).2.links := by
  cases h : selectMinUnused db.links with
  | none => rw [pop_of_sel_none oid uid db h]; exact hx
  | some row =>
    rw [pop_of_sel_some oid uid db row h]
    obtain ⟨hrm, hru, _⟩ := selectMinUnused_spec _ _ h
    have hne : x.id ≠ row.id := by
      intro he
      have := List.inj_on_of_nodup_map hid hx hrm he
      rw [this] at hxu
      rw [hxu] at hru
      cases hru
    have : allocUpdate oid uid row.id x = x := by
      unfold allocUpdate
      rw [if_neg hne]
    exact this ▸ List.mem_map_of_mem _ hx

/-- After a successful allocation the returned token's row is used. -/
theorem pop_returned_used (oid uid : ℕ) (db : PoolDB) (row : LinkRow)
    (h : selectMinUnused db.links = some row) :
    ∃ y ∈ (pop_available_link_for_order oid uid db).2.links,
      y.link = row.link ∧ y.is_used = true := by
  rw [pop_of_sel_some oid uid db row h]
  obtain ⟨hrm, _, _⟩ := selectMinUnused_spec _ _ h
  refine ⟨allocUpdate oid uid row.id row, List.mem_map_of_mem _ hrm, ?_, ?_⟩
  · exact allocUpdate_link ..
  · unfold allocUpdate
    rw [if_pos rfl]

theorem map_allocUpdate_untouched (oid uid rid : ℕ) (ls : List LinkRow)
    (h : ∀ x ∈ ls, x.id ≠ rid) : ls.map (allocUpdate oid uid rid) = ls := by
  induction ls with
  | nil => rfl
  | cons l ls ih =>
    rw [List.map_cons, ih (fun x hx => h x (List.mem_cons_of_mem _ hx))]
    congr 1
    unfold allocUpdate
    rw [if_neg (h l (List.mem_cons_self _ _))]

/-- A successful allocation consumes exactly one available token. -/
theorem count_after_update (oid uid : ℕ) (ls : List LinkRow) (row : LinkRow)
    (hid : (ls.map LinkRow.id).Nodup) (hrm : row ∈ ls) (hru : row.is_used = false) :
    ((ls.map (allocUpdate oid uid row.id)).filter (fun l => !l.is_used)).length + 1
      = (ls.filter (fun l => !l.is_used)).length := by
  induction ls with
  | nil => cases hrm
  | cons l ls ih =>
    rw [List.map_cons] at hid
    obtain ⟨hhead, hid'⟩ := List.nodup_cons.mp hid
    rcases List.mem_cons.mp hrm with rfl | hrm'
    · have hrest : ls.map (allocUpdate oid uid row.id) = ls := by
        refine map_allocUpdate_untouched oid uid row.id ls fun x hx he => ?_
        exact hhead (he ▸ List.mem_map_of_mem LinkRow.id hx)
      rw [List.map_cons, hrest]
      have hupd : allocUpdate oid uid row.id row
          = { row with is_used := true, used_by_order_id := some oid,
                       used_by_user_id := some uid } := by
        unfold allocUpdate
        rw [if_pos rfl]
      rw [hupd]
      rw [List.filter_cons, List.filter_cons]
      simp [hru]
    · have hne : l.id ≠ row.id := fun he =>
        hhead (he ▸ List.mem_map_of_mem LinkRow.id hrm')
      have hl : allocUpdate oid uid row.id l = l := by
        unfold allocUpdate
        rw [if_neg hne]
      rw [List.map_cons, hl, List.filter_cons, List.filter_cons]
      cases hlu : l.is_used with
      | true => simpa using ih hid' hrm'
      | false =>
        have hcount := ih hid' hrm'
        simp
        omega

theorem countAvailable_after_pop (oid uid : ℕ) (db : PoolDB) (row : LinkRow)
    (hid : (db.links.map LinkRow.id).Nodup)
    (hsel : selectMinUnused db.links = some row) :
    countAvailableLinks (pop_available_link_for_order oid uid db).2 + 1
      = countAvailableLinks db := by
  rw [pop_of_sel_some oid uid db row hsel]
  obtain ⟨hrm, hru, _⟩ := selectMinUnused_spec _ _ hsel
  exact count_after_update oid uid db.links row hid hrm hru

theorem pop_fst_none_state (oid uid : ℕ) (db : PoolDB)
    (h : (pop_available_link_for_order oid uid db).1 = none) :
    pop_available_link_for_order oid uid db = (none, db) := by
  cases hsel : selectMinUnused db.links with
  | none => exact pop_of_sel_none oid uid db hsel
  | some row =>
    rw [pop_of_sel_some oid uid db row hsel] at h
    cases h

/-- A token whose row is already used is never returned by any later
sequence of allocations. -/
theorem runAllocSeq_avoids_used (calls : List (ℕ × ℕ)) (db : PoolDB)
    (hid : (db.links.map LinkRow.id).Nodup)
    (hval : (db.links.map LinkRow.link).Nodup)
    (v : String) (hv : ∃ x ∈ db.links, x.link = v ∧ x.is_used = true) :
    v ∉ (runAllocSeq calls db).1 := by
  induction calls generalizing db with
  | nil => simp [runAllocSeq]
  | cons c rest ih =>
    obtain ⟨x, hx, hxv, hxu⟩ := hv
    cases hres : (pop_available_link_for_order c.1 c.2 db).1 with
    | none =>
      have heq := pop_fst_none_state c.1 c.2 db hres
      rw [runAllocSeq, heq]
      exact ih db hid hval ⟨x, hx, hxv, hxu⟩
    | some lnk =>
      cases hsel : selectMinUnused db.links with
      | none =>
        rw [pop_of_sel_none c.1 c.2 db hsel] at hres
        cases hres
      | some row =>
        have hpop := pop_of_sel_some c.1 c.2 db row hsel
        obtain ⟨hrm, hru, _⟩ := selectMinUnused_spec _ _ hsel
        have hlnk : lnk = row.link := by
          rw [hpop] at hres
          simpa using hres.symm
        rw [runAllocSeq, hpop]
        simp only [List.mem_cons]
        intro hmem
        have hid' : ((pop_available_link_for_order c.1 c.2 db).2.links.map LinkRow.id).Nodup :=
          (pop_preserves_maps c.1 c.2 db).1 ▸ hid
        have hval' : ((pop_available_link_for_order c.1 c.2 db).2.links.map LinkRow.link).Nodup :=
          (pop_preserves_maps c.1 c.2 db).2 ▸ hval
        have hx' : x ∈ (pop_available_link_for_order c.1 c.2 db).2.links :=
          pop_preserves_used c.1 c.2 db hid x hx hxu
        rcases hmem with hhead | htail
        · -- the returned token equals v: impossible, v's row is used, row is unused
          have hxr : x ≠ row := by
            intro he
            rw [he] at hxu
            rw [hxu] at hru
            cases hru
          have hne2 : x.link ≠ row.link := by
            intro he
            exact hxr (List.inj_on_of_nodup_map hval hx hrm he)
          exact hne2 (hxv.trans hhead)
        · have := ih (pop_available_link_for_order c.1 c.2 db).2
            (by rw [(pop_preserves_maps c.1 c.2 db).1]; exact hid)
            (by rw [(pop_preserves_maps c.1 c.2 db).2]; exact hval)
            ⟨x, hx', hxv, hxu⟩
          rw [hpop] at this
          exact this htail

/-- Over any sequence of allocations the returned tokens are pairwise
distinct. -/
theorem runAllocSeq_nodup (calls : List (ℕ × ℕ)) (db : PoolDB)
    (hid : (db.links.map LinkRow.id).Nodup)
    (hval : (db.links.map LinkRow.link).Nodup) :
    (runAllocSeq calls db).1.Nodup := by
  induction calls generalizing db with
  | nil => simp [runAllocSeq]
  | cons c rest ih =>
    cases hres : (pop_available_link_for_order c.1 c.2 db).1 with
    | none =>
      have heq := pop_fst_none_state c.1 c.2 db hres
      rw [runAllocSeq, heq]
      exact ih db hid hval
    | some lnk =>
      cases hsel : selectMinUnused db.links with
      | none =>
        rw [pop_of_sel_none c.1 c.2 db hsel] at hres
        cases hres
      | some row =>
        have hpop := pop_of_sel_some c.1 c.2 db row hsel
        have hlnk : lnk = row.link := by
          rw [hpop] at hres
          simpa using hres.symm
        rw [runAllocSeq, hpop]
        simp only [List.nodup_cons]
        have hid' : ((pop_available_link_for_order c.1 c.2 db).2.links.map LinkRow.id).Nodup :=
          by rw [(pop_preserves_maps c.1 c.2 db).1]; exact hid
        have hval' : ((pop_available_link_for_order c.1 c.2 db).2.links.map LinkRow.link).Nodup :=
          by rw [(pop_preserves_maps c.1 c.2 db).2]; exact hval
        constructor
        · have havoid := runAllocSeq_avoids_used rest
            (pop_available_link_for_order c.1 c.2 db).2 hid' hval' row.link
            (pop_returned_used c.1 c.2 db row hsel)
          rw [hpop] at havoid
          exact havoid
        · have := ih (pop_available_link_for_order c.1 c.2 db).2 hid' hval'
          rw [hpop] at this
          exact this

/-- C1.  With the primary-key and unique-value constraints (distinct ids and
distinct token values): whenever an unused token exists, the allocator
returns the unused token of smallest id, marks exactly that token used with
`used_by_order_id = orderId`, `used_by_user_id = userId`, marks the order
`delivered` with that token (the full resulting state is given explicitly),
and consumes exactly one available token; when no unused token exists it
returns `none` and leaves the store unchanged; and over any sequence of
allocation calls no token value is ever returned twice. -/
theorem c1_allocate_spec (db : PoolDB) (oid uid : ℕ)
    (hid : (db.links.map LinkRow.id).Nodup)
    (hval : (db.links.map LinkRow.link).Nodup) :
    (∀ row, selectMinUnused db.links = some row →
        row ∈ db.links ∧ row.is_used = false
        ∧ (∀ x ∈ db.links, x.is_used = false → row.id ≤ x.id)
        ∧ pop_available_link_for_order oid uid db
            = (some row.link,
               { links := db.links.map (allocUpdate oid uid row.id),
                 orders := db.orders.map fun o =>
                   if o.id = oid then
                     { o with status := "delivered", delivered_link := some row.link }
                   else o })
        ∧ countAvailableLinks (pop_available_link_for_order oid uid db).2 + 1
            = countAvailableLinks db)
    ∧ ((∀ l ∈ db.links, l.is_used = true) →
        pop_available_link_for_order oid uid db = (none, db))
    ∧ (∀ calls : List (ℕ × ℕ), (runAllocSeq calls db).1.Nodup) := by
  refine ⟨?_, ?_, ?_⟩
  · intro row hsel
    obtain ⟨hrm, hru, hmin⟩ := selectMinUnused_spec _ _ hsel
    exact ⟨hrm, hru, hmin, pop_of_sel_some oid uid db row hsel,
      countAvailable_after_pop oid uid db row hid hsel⟩
  · intro hall
    exact pop_of_sel_none oid uid db ((selectMinUnused_eq_none_iff _).mpr hall)
  · intro calls
    exact runAllocSeq_nodup calls db hid hval

/-- Witness for C1 on a two-token pool (ids 2 and 1, both unused) and one
pending order. -/
theorem c1_allocate_spec_witness :
    (([⟨2, "tokB", false, none, none⟩, ⟨1, "tokA", false, none, none⟩]
        : List LinkRow).map LinkRow.id).Nodup
    ∧ (([⟨2, "tokB", false, none, none⟩, ⟨1, "tokA", false, none, none⟩]
        : List LinkRow).map LinkRow.link).Nodup
    ∧ ((∀ row, selectMinUnused (PoolDB.mk
          [⟨2, "tokB", false, none, none⟩, ⟨1, "tokA", false, none, none⟩]
          [⟨5, 7, "paid_waiting_link", none⟩]).links = some row →
        row ∈ (PoolDB.mk [⟨2, "tokB", false, none, none⟩, ⟨1, "tokA", false, none, none⟩]
          [⟨5, 7, "paid_waiting_link", none⟩]).links ∧ row.is_used = false
        ∧ (∀ x ∈ (PoolDB.mk [⟨2, "tokB", false, none, none⟩, ⟨1, "tokA", false, none, none⟩]
            [⟨5, 7, "paid_waiting_link", none⟩]).links, x.is_used = false → row.id ≤ x.id)
        ∧ pop_available_link_for_order 5 7 (PoolDB.mk
            [⟨2, "tokB", false, none, none⟩, ⟨1, "tokA", false, none, none⟩]
            [⟨5, 7, "paid_waiting_link", none⟩])
            = (some row.link,
               { links := (PoolDB.mk [⟨2, "tokB", false, none, none⟩,
                    ⟨1, "tokA", false, none, none⟩]
                    [⟨5, 7, "paid_waiting_link", none⟩]).links.map (allocUpdate 5 7 row.id),
                 orders := (PoolDB.mk [⟨2, "tokB", false, none, none⟩,
                    ⟨1, "tokA", false, none, none⟩]
                    [⟨5, 7, "paid_waiting_link", none⟩]).orders.map fun o =>
                   if o.id = 5 then
                     { o with status := "delivered", delivered_link := some row.link }
                   else o })
        ∧ countAvailableLinks (pop_available_link_for_order 5 7 (PoolDB.mk
            [⟨2, "tokB", false, none, none⟩, ⟨1, "tokA", false, none, none⟩]
            [⟨5, 7, "paid_waiting_link", none⟩])).2 + 1
            = countAvailableLinks (PoolDB.mk
              [⟨2, "tokB", false, none, none⟩, ⟨1, "tokA", false, none, none⟩]
              [⟨5, 7, "paid_waiting_link", none⟩]))
      ∧ ((∀ l ∈ (PoolDB.mk [⟨2, "tokB", false, none, none⟩, ⟨1, "tokA", false, none, none⟩]
            [⟨5, 7, "paid_waiting_link", none⟩]).links, l.is_used = true) →
          pop_available_link_for_order 5 7 (PoolDB.mk
            [⟨2, "tokB", false, none, none⟩, ⟨1, "tokA", false, none, none⟩]
            [⟨5, 7, "paid_waiting_link", none⟩])
            = (none, PoolDB.mk [⟨2, "tokB", false, none, none⟩,
                ⟨1, "tokA", false, none, none⟩] [⟨5, 7, "paid_waiting_link", none⟩]))
      ∧ (∀ calls : List (ℕ × ℕ), (runAllocSeq calls (PoolDB.mk
          [⟨2, "tokB", false, none, none⟩, ⟨1, "tokA", false, none, none⟩]
          [⟨5, 7, "paid_waiting_link", none⟩])).1.Nodup))
    ∧ (pop_available_link_for_order 5 7 (PoolDB.mk
        [⟨2, "tokB", false, none, none⟩, ⟨1, "tokA", false, none, none⟩]
        [⟨5, 7, "paid_waiting_link", none⟩])).1 = some "tokA" :=
  ⟨by decide, by decide,
    c1_allocate_spec (PoolDB.mk
      [⟨2, "tokB", false, none, none⟩, ⟨1, "tokA", false, none, none⟩]
      [⟨5, 7, "paid_waiting_link", none⟩]) 5 7 (by decide) (by decide),
    by decide⟩

/-! ## C9: the backfill loop -/

theorem countAvailable_set_order (oid : ℕ) (lnk : String) (db : PoolDB) :
    countAvailableLinks (set_order_delivered oid lnk db) = countAvailableLinks db := rfl

theorem links_set_order (oid : ℕ) (lnk : String) (db : PoolDB) :
    (set_order_delivered oid lnk db).links = db.links := rfl

theorem sel_none_of_avail_zero (db : PoolDB) (h : countAvailableLinks db = 0) :
    selectMinUnused db.links = none := by
  refine (selectMinUnused_eq_none_iff _).mpr ?_
  intro x hx
  by_contra hxu
  have hxf : x ∈ db.links.filter (fun l => !l.is_used) := by
    refine List.mem_filter.mpr ⟨hx, ?_⟩
    simp [Bool.not_eq_true] at hxu ⊢
    exact hxu
  have : 0 < countAvailableLinks db := by
    unfold countAvailableLinks
    exact List.length_pos.mpr (List.ne_nil_of_mem hxf)
  omega

theorem sel_some_of_avail_pos (db : PoolDB) (h : 0 < countAvailableLinks db) :
    ∃ row, selectMinUnused db.links = some row := by
  cases hsel : selectMinUnused db.links with
  | some row => exact ⟨row, rfl⟩
  | none =>
    have hall := (selectMinUnused_eq_none_iff _).mp hsel
    have : db.links.filter (fun l => !l.is_used) = [] := by
      refine List.filter_eq_nil_iff.mpr ?_
      intro a ha
      simp [hall a ha]
    unfold countAvailableLinks at h
    rw [this] at h
    simp at h

/-- The backfill loop delivers `min (number of snapshot orders) (available)`
tokens on top of `sent`. -/
theorem fulfillLoop_count (pending : List OrderRow) (db : PoolDB) (sent : ℕ)
    (hid : (db.links.map LinkRow.id).Nodup) :
    (fulfillLoop pending db sent).1
      = sent + min pending.length (countAvailableLinks db) := by
  induction pending generalizing db sent with
  | nil => simp [fulfillLoop]
  | cons o rest ih =>
    by_cases h0 : countAvailableLinks db = 0
    · rw [fulfillLoop, pop_of_sel_none o.id o.user_id db (sel_none_of_avail_zero db h0)]
      simp [h0]
    · obtain ⟨row, hsel⟩ := sel_some_of_avail_pos db (Nat.pos_of_ne_zero h0)
      have hcnt := countAvailable_after_pop o.id o.user_id db row hid hsel
      have hids := (pop_preserves_maps o.id o.user_id db).1
      have hfst : (pop_available_link_for_order o.id o.user_id db).1 = some row.link := by
        rw [pop_of_sel_some o.id o.user_id db row hsel]
      rcases hp : pop_available_link_for_order o.id o.user_id db with ⟨res, db2⟩
      rw [hp] at hcnt hids hfst
      dsimp only at hcnt hids hfst
      subst hfst
      rw [fulfillLoop, hp]
      have hidE : ((set_order_delivered o.id row.link db2).links.map LinkRow.id).Nodup := by
        rw [links_set_order, hids]
        exact hid
      rw [ih (set_order_delivered o.id row.link db2) (sent + 1) hidE,
          countAvailable_set_order]
      simp only [List.length_cons]
      omega

/-- C9 (amended).  `admin_links_fulfill` snapshots the pending orders oldest
first — but only the first 50 (`list_pending_orders(50)`) — allocates for
each until the pool is exhausted, and the number of orders fulfilled equals
`min (min (pending count) 50) (available tokens)`; the snapshot is in
ascending id (creation) order and contains only `paid_waiting_link` orders. -/
theorem c9_fulfill_spec (db : PoolDB)
    (hid : (db.links.map LinkRow.id).Nodup)
    (hsorted : db.orders.Pairwise (fun a b => a.id < b.id)) :
    (admin_links_fulfill db).1
      = min (min (countPendingOrders db) 50) (countAvailableLinks db)
    ∧ (list_pending_orders 50 db).Pairwise (fun a b => a.id < b.id)
    ∧ (∀ o ∈ list_pending_orders 50 db, o.status = "paid_waiting_link") := by
  refine ⟨?_, ?_, ?_⟩
  · rw [admin_links_fulfill, fulfillLoop_count (list_pending_orders 50 db) db 0 hid]
    unfold list_pending_orders countPendingOrders
    rw [List.length_take]
    rw [Nat.min_comm 50 _]
    exact Nat.zero_add _
  · exact (hsorted.filter _).sublist (List.take_sublist _ _)
  · intro o ho
    have hm := List.mem_of_mem_take ho
    simpa using (List.mem_filter.mp hm).2

/-- Witness for C9: three pending orders, one available token — exactly one
order is fulfilled. -/
theorem c9_fulfill_spec_witness :
    (((PoolDB.mk [⟨4, "tokC", false, none, none⟩]
        [⟨1, 7, "paid_waiting_link", none⟩, ⟨2, 8, "paid_waiting_link", none⟩,
         ⟨3, 9, "delivered", some "old"⟩]).links.map LinkRow.id).Nodup)
    ∧ ((PoolDB.mk [⟨4, "tokC", false, none, none⟩]
        [⟨1, 7, "paid_waiting_link", none⟩, ⟨2, 8, "paid_waiting_link", none⟩,
         ⟨3, 9, "delivered", some "old"⟩]).orders.Pairwise (fun a b => a.id < b.id))
    ∧ ((admin_links_fulfill (PoolDB.mk [⟨4, "tokC", false, none, none⟩]
          [⟨1, 7, "paid_waiting_link", none⟩, ⟨2, 8, "paid_waiting_link", none⟩,
           ⟨3, 9, "delivered", some "old"⟩])).1
        = min (min (countPendingOrders (PoolDB.mk [⟨4, "tokC", false, none, none⟩]
            [⟨1, 7, "paid_waiting_link", none⟩, ⟨2, 8, "paid_waiting_link", none⟩,
             ⟨3, 9, "delivered", some "old"⟩])) 50)
            (countAvailableLinks (PoolDB.mk [⟨4, "tokC", false, none, none⟩]
              [⟨1, 7, "paid_waiting_link", none⟩, ⟨2, 8, "paid_waiting_link", none⟩,
               ⟨3, 9, "delivered", some "old"⟩]))
      ∧ (list_pending_orders 50 (PoolDB.mk [⟨4, "tokC", false, none, none⟩]
          [⟨1, 7, "paid_waiting_link", none⟩, ⟨2, 8, "paid_waiting_link", none⟩,
           ⟨3, 9, "delivered", some "old"⟩])).Pairwise (fun a b => a.id < b.id)
      ∧ (∀ o ∈ list_pending_orders 50 (PoolDB.mk [⟨4, "tokC", false, none, none⟩]
          [⟨1, 7, "paid_waiting_link", none⟩, ⟨2, 8, "paid_waiting_link", none⟩,
           ⟨3, 9, "delivered", some "old"⟩]), o.status = "paid_waiting_link"))
    ∧ (admin_links_fulfill (PoolDB.mk [⟨4, "tokC", false, none, none⟩]
        [⟨1, 7, "paid_waiting_link", none⟩, ⟨2, 8, "paid_waiting_link", none⟩,
         ⟨3, 9, "delivered", some "old"⟩])).1 = 1 :=
  ⟨by decide, by decide,
    c9_fulfill_spec (PoolDB.mk [⟨4, "tokC", false, none, none⟩]
      [⟨1, 7, "paid_waiting_link", none⟩, ⟨2, 8, "paid_waiting_link", none⟩,
       ⟨3, 9, "delivered", some "old"⟩]) (by decide) (by decide),
    by decide⟩

/-- The 51-pending, 51-token store on which the unamended C9 claim fails:
the loop is capped at 50 orders by `list_pending_orders(50)`. -/
def db51 : PoolDB :=
  { links := (List.range 51).map fun i => ⟨i + 1, "x", false, none, none⟩,
    orders := (List.range 51).map fun i => ⟨i + 1, 7, "paid_waiting_link", none⟩ }

set_option maxRecDepth 40000 in
/-- C9 counterexample: with 51 pending orders and 51 available tokens the
code fulfills only 50 orders, not `min (pending) (available) = 51` — the
snapshot is `LIMIT 50`. -/
theorem c9_fulfill_counterexample :
    (admin_links_fulfill db51).1
      ≠ min (countPendingOrders db51) (countAvailableLinks db51) := by
  decide

/-! ## C6: deposit resolution is one-shot -/

theorem set_deposit_status_referrer (i : ℤ) (st : String) (db : BankDB) :
    (set_deposit_status i st db).referrer = db.referrer := rfl

theorem approve_deposits_field (dep_id : ℤ) (db : BankDB) (dep : DepositRow)
    (h : db.deposits dep_id = some dep) (hst : dep.status = "pending_admin") :
    (deposit_approve dep_id db).2.deposits
      = (set_deposit_status dep_id "approved" db).deposits := by
  simp only [deposit_approve, h, hst]
  simp only [reduceIte, set_deposit_status_referrer]
  cases h2 : db.referrer dep.user_id with
  | none => simp [h2]
  | some r =>
    simp only [h2]
    split
    · split <;> rfl
    · rfl

theorem reject_deposits_field (dep_id : ℤ) (db : BankDB) (dep : DepositRow)
    (h : db.deposits dep_id = some dep) (hst : dep.status = "pending_admin") :
    (deposit_reject dep_id db).2.deposits
      = (set_deposit_status dep_id "rejected" db).deposits := by
  simp only [deposit_reject, h, hst]
  simp only [reduceIte]

theorem set_status_at (dep_id : ℤ) (st : String) (db : BankDB) (dep : DepositRow)
    (h : db.deposits dep_id = some dep) :
    (set_deposit_status dep_id st db).deposits dep_id = some { dep with status := st } := by
  unfold set_deposit_status
  dsimp only
  rw [if_pos rfl, h]
  rfl

theorem approve_not_pending (dep_id : ℤ) (db : BankDB) (dep : DepositRow)
    (h : db.deposits dep_id = some dep) (hst : dep.status ≠ "pending_admin") :
    deposit_approve dep_id db = (false, db) := by
  simp only [deposit_approve, h]
  rw [if_neg hst]

theorem reject_not_pending (dep_id : ℤ) (db : BankDB) (dep : DepositRow)
    (h : db.deposits dep_id = some dep) (hst : dep.status ≠ "pending_admin") :
    deposit_reject dep_id db = (false, db) := by
  simp only [deposit_reject, h]
  rw [if_neg hst]

/-- C6.  Resolving a deposit that does not exist or is no longer
`pending_admin` reports not-actionable (`false`) and leaves the whole store
unchanged, on both the approve and the reject path; consequently once a
pending deposit has been approved (or rejected) its status is terminal and
any second resolution attempt is a no-op on an unchanged store. -/
theorem c6_resolve_once (db : BankDB) (dep_id : ℤ) :
    (db.deposits dep_id = none →
        deposit_approve dep_id db = (false, db)
        ∧ deposit_reject dep_id db = (false, db))
    ∧ (∀ dep, db.deposits dep_id = some dep → dep.status ≠ "pending_admin" →
        deposit_approve dep_id db = (false, db)
        ∧ deposit_reject dep_id db = (false, db))
    ∧ (∀ dep, db.deposits dep_id = some dep → dep.status = "pending_admin" →
        (deposit_approve dep_id db).2.deposits dep_id
            = some { dep with status := "approved" }
        ∧ deposit_approve dep_id (deposit_approve dep_id db).2
            = (false, (deposit_approve dep_id db).2)
        ∧ deposit_reject dep_id (deposit_approve dep_id db).2
            = (false, (deposit_approve dep_id db).2)
        ∧ (deposit_reject dep_id db).2.deposits dep_id
            = some { dep with status := "rejected" }
        ∧ deposit_approve dep_id (deposit_reject dep_id db).2
            = (false, (deposit_reject dep_id db).2)
        ∧ deposit_reject dep_id (deposit_reject dep_id db).2
            = (false, (deposit_reject dep_id db).2)) := by
  refine ⟨?_, ?_, ?_⟩
  · intro h
    constructor
    · unfold deposit_approve; rw [h]
    · unfold deposit_reject; rw [h]
  · intro dep h hst
    exact ⟨approve_not_pending dep_id db dep h hst, reject_not_pending dep_id db dep h hst⟩
  · intro dep h hst
    have ha : (deposit_approve dep_id db).2.deposits dep_id
        = some { dep with status := "approved" } := by
      rw [approve_deposits_field dep_id db dep h hst]
      exact set_status_at dep_id "approved" db dep h
    have hr : (deposit_reject dep_id db).2.deposits dep_id
        = some { dep with status := "rejected" } := by
      rw [reject_deposits_field dep_id db dep h hst]
      exact set_status_at dep_id "rejected" db dep h
    refine ⟨ha, ?_, ?_, hr, ?_, ?_⟩
    · exact approve_not_pending dep_id _ _ ha (by simp)
    · exact reject_not_pending dep_id _ _ ha (by simp)
    · exact approve_not_pending dep_id _ _ hr (by simp)
    · exact reject_not_pending dep_id _ _ hr (by simp)

/-- Witness for C6 on a one-deposit store: a pending deposit approved once,
then re-resolved in every way. -/
theorem c6_resolve_once_witness :
    ((BankDB.mk (fun x => if x = 1 then some ⟨7, 100000, "pending_admin"⟩ else none)
        (fun _ => 0) (fun _ => none) (fun _ => 0)).deposits 1 = none →
      deposit_approve 1 (BankDB.mk
          (fun x => if x = 1 then some ⟨7, 100000, "pending_admin"⟩ else none)
          (fun _ => 0) (fun _ => none) (fun _ => 0))
        = (false, BankDB.mk
            (fun x => if x = 1 then some ⟨7, 100000, "pending_admin"⟩ else none)
            (fun _ => 0) (fun _ => none) (fun _ => 0))
      ∧ deposit_reject 1 (BankDB.mk
          (fun x => if x = 1 then some ⟨7, 100000, "pending_admin"⟩ else none)
          (fun _ => 0) (fun _ => none) (fun _ => 0))
        = (false, BankDB.mk
            (fun x => if x = 1 then some ⟨7, 100000, "pending_admin"⟩ else none)
            (fun _ => 0) (fun _ => none) (fun _ => 0)))
    ∧ (∀ dep, (BankDB.mk
          (fun x => if x = 1 then some ⟨7, 100000, "pending_admin"⟩ else none)
          (fun _ => 0) (fun _ => none) (fun _ => 0)).deposits 1 = some dep →
        dep.status ≠ "pending_admin" →
        deposit_approve 1 (BankDB.mk
            (fun x => if x = 1 then some ⟨7, 100000, "pending_admin"⟩ else none)
            (fun _ => 0) (fun _ => none) (fun _ => 0))
          = (false, BankDB.mk
              (fun x => if x = 1 then some ⟨7, 100000, "pending_admin"⟩ else none)
              (fun _ => 0) (fun _ => none) (fun _ => 0))
        ∧ deposit_reject 1 (BankDB.mk
            (fun x => if x = 1 then some ⟨7, 100000, "pending_admin"⟩ else none)
            (fun _ => 0) (fun _ => none) (fun _ => 0))
          = (false, BankDB.mk
              (fun x => if x = 1 then some ⟨7, 100000, "pending_admin"⟩ else none)
              (fun _ => 0) (fun _ => none) (fun _ => 0)))
    ∧ (∀ dep, (BankDB.mk
          (fun x => if x = 1 then some ⟨7, 100000, "pending_admin"⟩ else none)
          (fun _ => 0) (fun _ => none) (fun _ => 0)).deposits 1 = some dep →
        dep.status = "pending_admin" →
        (deposit_approve 1 (BankDB.mk
            (fun x => if x = 1 then some ⟨7, 100000, "pending_admin"⟩ else none)
            (fun _ => 0) (fun _ => none) (fun _ => 0))).2.deposits 1
            = some { dep with status := "approved" }
        ∧ deposit_approve 1 (deposit_approve 1 (BankDB.mk
            (fun x => if x = 1 then some ⟨7, 100000, "pending_admin"⟩ else none)
            (fun _ => 0) (fun _ => none) (fun _ => 0))).2
            = (false, (deposit_approve 1 (BankDB.mk
                (fun x => if x = 1 then some ⟨7, 100000, "pending_admin"⟩ else none)
                (fun _ => 0) (fun _ => none) (fun _ => 0))).2)
        ∧ deposit_reject 1 (deposit_approve 1 (BankDB.mk
            (fun x => if x = 1 then some ⟨7, 100000, "pending_admin"⟩ else none)
            (fun _ => 0) (fun _ => none) (fun _ => 0))).2
            = (false, (deposit_approve 1 (BankDB.mk
                (fun x => if x = 1 then some ⟨7, 100000, "pending_admin"⟩ else none)
                (fun _ => 0) (fun _ => none) (fun _ => 0))).2)
        ∧ (deposit_reject 1 (BankDB.mk
            (fun x => if x = 1 then some ⟨7, 100000, "pending_admin"⟩ else none)
            (fun _ => 0) (fun _ => none) (fun _ => 0))).2.deposits 1
            = some { dep with status := "rejected" }
        ∧ deposit_approve 1 (deposit_reject 1 (BankDB.mk
            (fun x => if x = 1 then some ⟨7, 100000, "pending_admin"⟩ else none)
            (fun _ => 0) (fun _ => none) (fun _ => 0))).2
            = (false, (deposit_reject 1 (BankDB.mk
                (fun x => if x = 1 then some ⟨7, 100000, "pending_admin"⟩ else none)
                (fun _ => 0) (fun _ => none) (fun _ => 0))).2)
        ∧ deposit_reject 1 (deposit_reject 1 (BankDB.mk
            (fun x => if x = 1 then some ⟨7, 100000, "pending_admin"⟩ else none)
            (fun _ => 0) (fun _ => none) (fun _ => 0))).2
            = (false, (deposit_reject 1 (BankDB.mk
                (fun x => if x = 1 then some ⟨7, 100000, "pending_admin"⟩ else none)
                (fun _ => 0) (fun _ => none) (fun _ => 0))).2)) :=
  c6_resolve_once (BankDB.mk
    (fun x => if x = 1 then some ⟨7, 100000, "pending_admin"⟩ else none)
    (fun _ => 0) (fun _ => none) (fun _ => 0)) 1

/-! ## C4: the referral commission and `int(amount * 0.15)` -/

theorem twenty_refPercentNum : 20 * refPercentNum + 4 = 3 * 2 ^ 55 := by decide

theorem refPercentNum_lb : 2 ^ 52 < refPercentNum := by decide

theorem refPercentNum_ub : refPercentNum < 2 ^ 53 := by decide

theorem roundSig_small (M : ℕ) (h : M < 2 ^ 53) : roundSig M = M := by
  unfold roundSig
  rw [if_pos h]

theorem bitlenAux_eq (fuel n : ℕ) (h : n ≤ fuel) : bitlenAux fuel n = Nat.log2 n := by
  induction fuel generalizing n with
  | zero =>
    have : n = 0 := by omega
    subst this
    rw [Nat.log2, if_neg (by omega)]
    rfl
  | succ fuel ih =>
    by_cases h1 : n ≤ 1
    · rw [bitlenAux, if_pos h1, Nat.log2]
      rw [if_neg (by omega)]
    · rw [bitlenAux, if_neg h1, Nat.log2, if_pos (by omega)]
      rw [ih (n / 2) (by omega)]

theorem log2e_eq (n : ℕ) : log2e n = Nat.log2 n := bitlenAux_eq n n le_rfl

theorem roundSig_big (M : ℕ) (h : ¬ M < 2 ^ 53) :
    roundSig M
      = (if 2 ^ (M.log2 - 52 - 1) < M % 2 ^ (M.log2 - 52)
            ∨ (M % 2 ^ (M.log2 - 52) = 2 ^ (M.log2 - 52 - 1)
                ∧ (M / 2 ^ (M.log2 - 52)) % 2 = 1)
         then M / 2 ^ (M.log2 - 52) + 1 else M / 2 ^ (M.log2 - 52))
        * 2 ^ (M.log2 - 52) := by
  unfold roundSig
  rw [if_neg h, log2e_eq]

/-- Round-to-nearest never moves a value across a window `[K·2^55, (K+1)·2^55)`
whose lower end is representable: the floor after rounding is `K`. -/
theorem roundSig_floor_eq (M K : ℕ) (hM53 : 2 ^ 53 ≤ M)
    (hlow : K * 2 ^ 55 ≤ M)
    (hhigh : M + 2 ^ (M.log2 - 52 - 1) < (K + 1) * 2 ^ 55)
    (hkle : M.log2 - 52 ≤ 55) :
    roundSig M / 2 ^ 55 = K := by
  have hM0 : M ≠ 0 := by omega
  have hlog : 53 ≤ M.log2 := (Nat.le_log2 hM0).mpr hM53
  rw [roundSig_big M (by omega)]
  set k := M.log2 - 52 with hkdef
  have hk1 : 1 ≤ k := by omega
  have hpow : (2 : ℕ) ^ (55 - k) * 2 ^ k = 2 ^ 55 := by
    rw [← pow_add]
    congr 1
    omega
  have h2k : (2 : ℕ) ^ (k - 1) * 2 = 2 ^ k := by
    rw [← pow_succ]
    congr 1
    omega
  have hApos : 0 < (2 : ℕ) ^ k := Nat.pos_pow_of_pos _ (by norm_num)
  have hPW : K * 2 ^ 55 ≤ M / 2 ^ k * 2 ^ k := by
    have h1 : K * 2 ^ (55 - k) ≤ M / 2 ^ k := by
      rw [Nat.le_div_iff_mul_le hApos, mul_assoc, hpow]
      exact hlow
    calc K * 2 ^ 55 = K * 2 ^ (55 - k) * 2 ^ k := by rw [mul_assoc, hpow]
      _ ≤ M / 2 ^ k * 2 ^ k := Nat.mul_le_mul_right _ h1
  have hDA : M / 2 ^ k * 2 ^ k + M % 2 ^ k = M := Nat.div_add_mod' M (2 ^ k)
  have hmod_lt : M % 2 ^ k < 2 ^ k := Nat.mod_lt _ hApos
  have hKP : (K + 1) * 2 ^ 55 = K * 2 ^ 55 + 2 ^ 55 := by ring
  split
  · rename_i hcond
    have hr_ge : 2 ^ (k - 1) ≤ M % 2 ^ k := by
      rcases hcond with hlt | ⟨heq, _⟩
      · omega
      · omega
    have hRup : (M / 2 ^ k + 1) * 2 ^ k = M / 2 ^ k * 2 ^ k + 2 ^ k := by ring
    apply Nat.div_eq_of_lt_le
    · rw [hRup]
      omega
    · rw [hRup, hKP]
      omega
  · apply Nat.div_eq_of_lt_le
    · exact hPW
    · rw [hKP]
      omega

/-- Round-to-nearest of `K·2^55 - u` rounds back up to the representable
value `K·2^55` when the deficit `u` is below half a unit in the last place. -/
theorem roundSig_exact (M K u : ℕ) (hM53 : 2 ^ 53 ≤ M)
    (hMeq : M + u = K * 2 ^ 55) (hu0 : 0 < u)
    (hu : u < 2 ^ (M.log2 - 52 - 1)) (hkle : M.log2 - 52 ≤ 55) :
    roundSig M = K * 2 ^ 55 := by
  have hM0 : M ≠ 0 := by omega
  have hlog : 53 ≤ M.log2 := (Nat.le_log2 hM0).mpr hM53
  rw [roundSig_big M (by omega)]
  set k := M.log2 - 52 with hkdef
  have hk1 : 1 ≤ k := by omega
  have hpow : (2 : ℕ) ^ (55 - k) * 2 ^ k = 2 ^ 55 := by
    rw [← pow_add]
    congr 1
    omega
  have h2k : (2 : ℕ) ^ (k - 1) * 2 = 2 ^ k := by
    rw [← pow_succ]
    congr 1
    omega
  have hApos : 0 < (2 : ℕ) ^ k := Nat.pos_pow_of_pos _ (by norm_num)
  have hA55 : (2 : ℕ) ^ k ≤ 2 ^ 55 := Nat.pow_le_pow_right (by norm_num) (by omega)
  have hKpos : 0 < K := by
    by_contra hc
    push_neg at hc
    interval_cases K
    omega
  have hK55 : 2 ^ 55 ≤ K * 2 ^ 55 := Nat.le_mul_of_pos_left _ hKpos
  have hq0pos : 0 < K * 2 ^ (55 - k) :=
    Nat.mul_pos hKpos (Nat.pos_pow_of_pos _ (by norm_num))
  have hfact : (K * 2 ^ (55 - k) - 1) * 2 ^ k = K * 2 ^ 55 - 2 ^ k := by
    rw [Nat.sub_mul, one_mul, mul_assoc, hpow]
  have huA : u < 2 ^ k := by omega
  have hdecomp : M = (K * 2 ^ (55 - k) - 1) * 2 ^ k + (2 ^ k - u) := by
    rw [hfact]
    omega
  have hmod : M % 2 ^ k = 2 ^ k - u := by
    rw [hdecomp, mul_comm (K * 2 ^ (55 - k) - 1) (2 ^ k), Nat.mul_add_mod]
    exact Nat.mod_eq_of_lt (by omega)
  have hdiv : M / 2 ^ k = K * 2 ^ (55 - k) - 1 := by
    rw [hdecomp, mul_comm (K * 2 ^ (55 - k) - 1) (2 ^ k), Nat.mul_add_div hApos]
    rw [Nat.div_eq_of_lt (by omega)]
    omega
  rw [hmod, hdiv]
  rw [if_pos (Or.inl (by omega))]
  rw [show K * 2 ^ (55 - k) - 1 + 1 = K * 2 ^ (55 - k) by omega]
  rw [mul_assoc, hpow]

/-- For every amount below `2^51`, the Python float computation
`int(amount * 0.15)` agrees with the exact integer `amount * 15 / 100`. -/
theorem floatProfit_exact (n : ℕ) (hn : n < 2 ^ 51) :
    floatProfit n = n * 15 / 100 := by
  have h15 : n * 15 / 100 = 3 * n / 20 := by
    rw [show n * 15 = 3 * n * 5 by ring, show (100 : ℕ) = 20 * 5 by norm_num]
    exact Nat.mul_div_mul_right _ _ (by norm_num)
  by_cases hsm : n < 2
  · interval_cases n <;> decide
  · push_neg at hsm
    unfold floatProfit
    rw [roundSig_small n (by omega)]
    rw [show refPercentNum = 5404319552844595 from rfl]
    rw [h15]
    have hkey : 20 * (n * 5404319552844595) + 4 * n = 3 * n * 2 ^ 55 := by
      have : (3 : ℕ) * 2 ^ 55 = 108086391056891904 := by norm_num
      calc 20 * (n * 5404319552844595) + 4 * n
          = n * (20 * 5404319552844595 + 4) := by ring
        _ = n * (3 * 2 ^ 55) := by norm_num
        _ = 3 * n * 2 ^ 55 := by ring
    have hM53 : 2 ^ 53 ≤ n * 5404319552844595 := by
      calc (2 : ℕ) ^ 53 ≤ 2 * 5404319552844595 := by norm_num
        _ ≤ n * 5404319552844595 := Nat.mul_le_mul_right _ hsm
    have hM0 : n * 5404319552844595 ≠ 0 := by omega
    have hlog_lo : 53 ≤ (n * 5404319552844595).log2 := (Nat.le_log2 hM0).mpr hM53
    have hlog_hi : (n * 5404319552844595).log2 ≤ 103 := by
      have hub : n * 5404319552844595 < 2 ^ 104 := by
        have h1 : n * 5404319552844595 < 2 ^ 51 * 5404319552844595 :=
          mul_lt_mul_of_pos_right hn (by norm_num)
        have h2 : (2 : ℕ) ^ 51 * 5404319552844595 < 2 ^ 104 := by norm_num
        omega
      have := (Nat.log2_lt hM0).mpr hub
      omega
    have hH : 2 ^ ((n * 5404319552844595).log2 - 52 - 1) ≤ 2 ^ 50 :=
      Nat.pow_le_pow_right (by norm_num) (by omega)
    by_cases hJ : 3 * n % 20 = 0
    · -- `3n/20` is hit exactly; the float rounds back up to it.
      have hn5 : 5 * (n / 5) = n := by omega
      have hMeq : n * 5404319552844595 + n / 5 = (3 * n / 20) * 2 ^ 55 := by omega
      have hu0 : 0 < n / 5 := by omega
      have hu : n / 5 < 2 ^ ((n * 5404319552844595).log2 - 52 - 1) := by
        have hsplit : (2 : ℕ) ^ ((n * 5404319552844595).log2 + 1)
            = 2 ^ 53 * 2 ^ ((n * 5404319552844595).log2 - 52) := by
          rw [← pow_add]
          congr 1
          omega
        have hlt : n * 5404319552844595
            < 2 ^ 53 * 2 ^ ((n * 5404319552844595).log2 - 52) := by
          rw [← hsplit]
          exact Nat.lt_log2_self
        have hnc : n * 2 ^ 52 < n * 5404319552844595 :=
          mul_lt_mul_of_pos_left (by norm_num) (by omega)
        have h2kk : (2 : ℕ) ^ ((n * 5404319552844595).log2 - 52)
            = 2 ^ ((n * 5404319552844595).log2 - 52 - 1) * 2 := by
          rw [← pow_succ]
          congr 1
          omega
        rw [h2kk] at hlt
        omega
      have hres := roundSig_exact (n * 5404319552844595) (3 * n / 20) (n / 5)
        hM53 hMeq hu0 hu (by omega)
      rw [hres, Nat.mul_div_cancel _ (by norm_num : 0 < 2 ^ 55)]
    · -- `3n/20` has a remainder; the round stays inside the window.
      have hlow : (3 * n / 20) * 2 ^ 55 ≤ n * 5404319552844595 := by omega
      have hhigh : n * 5404319552844595
            + 2 ^ ((n * 5404319552844595).log2 - 52 - 1)
          < (3 * n / 20 + 1) * 2 ^ 55 := by omega
      exact roundSig_floor_eq (n * 5404319552844595) (3 * n / 20)
        hM53 hlow hhigh (by omega)

theorem approve_referrer_effect (dep_id : ℤ) (db : BankDB) (dep : DepositRow) (r : ℤ)
    (h : db.deposits dep_id = some dep) (hst : dep.status = "pending_admin")
    (hr : db.referrer dep.user_id = some r) (hr0 : r ≠ 0) (hru : r ≠ dep.user_id) :
    (deposit_approve dep_id db).2.wallets r
        = db.wallets r + (floatProfit dep.amount : ℤ)
    ∧ (deposit_approve dep_id db).2.ref_profits r
        = db.ref_profits r + (floatProfit dep.amount : ℤ) := by
  simp only [deposit_approve, h, hst]
  simp only [reduceIte, set_deposit_status_referrer, hr]
  rw [if_pos (show ¬r = 0 ∧ ¬r = dep.user_id from ⟨hr0, hru⟩)]
  by_cases hp : 0 < floatProfit dep.amount
  · rw [if_pos hp]
    constructor
    · simp [add_ref_profit, add_wallet_balance, set_deposit_status, hru]
    · simp [add_ref_profit, add_wallet_balance, set_deposit_status]
  · rw [if_neg hp]
    have hp0 : floatProfit dep.amount = 0 := by omega
    constructor
    · simp [add_wallet_balance, set_deposit_status, hru, hp0]
    · simp [set_deposit_status, hp0]

/-- C4 (amended).  For every approved deposit of amount below `2^51` whose
owner has a nonzero referrer distinct from themselves, the commission
credited to the referrer's wallet and added to the referrer's accumulator is
exactly `floor(amount * 15 / 100)` computed over the integers.  (The code
computes `int(amount * 0.15)` in binary64 floating point; the two agree on
this whole range, and first diverge at amount `7505999378950833 ≈ 7.5·10^15`,
see the counterexample.) -/
theorem c4_commission_spec (dep_id : ℤ) (db : BankDB) (dep : DepositRow) (r : ℤ)
    (h : db.deposits dep_id = some dep) (hst : dep.status = "pending_admin")
    (hr : db.referrer dep.user_id = some r) (hr0 : r ≠ 0) (hru : r ≠ dep.user_id)
    (hbound : dep.amount < 2 ^ 51) :
    (deposit_approve dep_id db).2.wallets r
        = db.wallets r + ((dep.amount * 15 / 100 : ℕ) : ℤ)
    ∧ (deposit_approve dep_id db).2.ref_profits r
        = db.ref_profits r + ((dep.amount * 15 / 100 : ℕ) : ℤ) := by
  have heff := approve_referrer_effect dep_id db dep r h hst hr hr0 hru
  rw [floatProfit_exact dep.amount hbound] at heff
  exact heff

/-- Witness for C4: approving a 100000-unit deposit credits the referrer
exactly 15000. -/
theorem c4_commission_spec_witness :
    (BankDB.mk (fun x => if x = 1 then some ⟨7, 100000, "pending_admin"⟩ else none)
        (fun _ => 0) (fun x => if x = 7 then some 9 else none) (fun _ => 0)).deposits 1
      = some ⟨7, 100000, "pending_admin"⟩
    ∧ (DepositRow.mk 7 100000 "pending_admin").status = "pending_admin"
    ∧ (BankDB.mk (fun x => if x = 1 then some ⟨7, 100000, "pending_admin"⟩ else none)
        (fun _ => 0) (fun x => if x = 7 then some 9 else none)
        (fun _ => 0)).referrer (DepositRow.mk 7 100000 "pending_admin").user_id = some 9
    ∧ (9 : ℤ) ≠ 0
    ∧ (9 : ℤ) ≠ (DepositRow.mk 7 100000 "pending_admin").user_id
    ∧ (DepositRow.mk 7 100000 "pending_admin").amount < 2 ^ 51
    ∧ ((deposit_approve 1 (BankDB.mk
          (fun x => if x = 1 then some ⟨7, 100000, "pending_admin"⟩ else none)
          (fun _ => 0) (fun x => if x = 7 then some 9 else none)
          (fun _ => 0))).2.wallets 9
        = (BankDB.mk (fun x => if x = 1 then some ⟨7, 100000, "pending_admin"⟩ else none)
            (fun _ => 0) (fun x => if x = 7 then some 9 else none)
            (fun _ => 0)).wallets 9
          + (((DepositRow.mk 7 100000 "pending_admin").amount * 15 / 100 : ℕ) : ℤ)
      ∧ (deposit_approve 1 (BankDB.mk
          (fun x => if x = 1 then some ⟨7, 100000, "pending_admin"⟩ else none)
          (fun _ => 0) (fun x => if x = 7 then some 9 else none)
          (fun _ => 0))).2.ref_profits 9
        = (BankDB.mk (fun x => if x = 1 then some ⟨7, 100000, "pending_admin"⟩ else none)
            (fun _ => 0) (fun x => if x = 7 then some 9 else none)
            (fun _ => 0)).ref_profits 9
          + (((DepositRow.mk 7 100000 "pending_admin").amount * 15 / 100 : ℕ) : ℤ))
    ∧ (100000 * 15 / 100 : ℕ) = 15000 :=
  ⟨by decide, by decide, by decide, by decide, by decide, by decide,
    c4_commission_spec 1 (BankDB.mk
      (fun x => if x = 1 then some ⟨7, 100000, "pending_admin"⟩ else none)
      (fun _ => 0) (fun x => if x = 7 then some 9 else none) (fun _ => 0))
      ⟨7, 100000, "pending_admin"⟩ 9 (by decide) (by decide) (by decide)
      (by decide) (by decide) (by decide),
    by decide⟩

/-- The store on which the unamended C4 claim fails: a pending deposit of
`7505999378950833` whose owner `7` was referred by `9`. -/
def c4db : BankDB :=
  { deposits := fun x => if x = 1 then some ⟨7, 7505999378950833, "pending_admin"⟩ else none,
    wallets := fun _ => 0,
    referrer := fun x => if x = 7 then some 9 else none,
    ref_profits := fun _ => 0 }

set_option maxRecDepth 100000 in
/-- C4 counterexample: at amount `7505999378950833` the float computation
`int(amount * 0.15)` credits the referrer one unit MORE than the exact
integer `floor(amount * 15 / 100)` — floating point does affect the result. -/
theorem c4_commission_counterexample :
    (deposit_approve 1 c4db).2.wallets 9
        ≠ c4db.wallets 9 + ((7505999378950833 * 15 / 100 : ℕ) : ℤ)
    ∧ (deposit_approve 1 c4db).2.wallets 9
        = c4db.wallets 9 + ((7505999378950833 * 15 / 100 : ℕ) : ℤ) + 1 := by
  constructor
  · decide
  · decide

/-! ## C7: the calendar round-trip -/

theorem checkDays_ok (gy gm : ℤ) (n : ℕ) (h : checkDays gy gm n = true) :
    ∀ d : ℕ, d < n → roundTripOK gy gm ((d : ℤ) + 1) = true := by
  induction n with
  | zero => intro d hd; omega
  | succ n ih =>
    rw [checkDays, Bool.and_eq_true] at h
    intro d hd
    by_cases hdn : d = n
    · subst hdn
      exact h.1
    · exact ih h.2 d (by omega)

theorem checkMonths_ok (gy : ℤ) (n : ℕ) (h : checkMonths gy n = true) :
    ∀ m : ℕ, m < n →
      checkDays gy ((m : ℤ) + 1) (gregorian_month_days gy ((m : ℤ) + 1)).toNat = true := by
  induction n with
  | zero => intro m hm; omega
  | succ n ih =>
    rw [checkMonths, Bool.and_eq_true] at h
    intro m hm
    by_cases hmn : m = n
    · subst hmn
      exact h.1
    · exact ih h.2 m (by omega)

theorem checkYears_ok (lo : ℤ) (n : ℕ) (h : checkYears lo n = true) :
    ∀ y : ℕ, y < n → checkMonths (lo + (y : ℤ)) 12 = true := by
  induction n with
  | zero => intro y hy; omega
  | succ n ih =>
    rw [checkYears, Bool.and_eq_true] at h
    intro y hy
    by_cases hyn : y = n
    · subst hyn
      exact h.1
    · exact ih h.2 y (by omega)

set_option maxRecDepth 1000000 in
set_option maxHeartbeats 40000000 in
/-- Exhaustive round-trip check, years 2012-2017. -/
theorem calendarChunk1 : checkYears 2012 6 = true := by decide

set_option maxRecDepth 1000000 in
set_option maxHeartbeats 40000000 in
/-- Exhaustive round-trip check, years 2018-2023. -/
theorem calendarChunk2 : checkYears 2018 6 = true := by decide

set_option maxRecDepth 1000000 in
set_option maxHeartbeats 40000000 in
/-- Exhaustive round-trip check, years 2024-2029. -/
theorem calendarChunk3 : checkYears 2024 6 = true := by decide

set_option maxRecDepth 1000000 in
set_option maxHeartbeats 40000000 in
/-- Exhaustive round-trip check, years 2030-2035. -/
theorem calendarChunk4 : checkYears 2030 6 = true := by decide

set_option maxRecDepth 1000000 in
set_option maxHeartbeats 40000000 in
/-- Exhaustive round-trip check, years 2036-2041. -/
theorem calendarChunk5 : checkYears 2036 6 = true := by decide

/-- Any date of a verified year window round-trips. -/
theorem roundtrip_of_chunk (lo : ℤ) (n : ℕ) (hchunk : checkYears lo n = true)
    (gy gm gd : ℤ) (hy : lo ≤ gy ∧ gy < lo + n) (hm : 1 ≤ gm ∧ gm ≤ 12)
    (hd : 1 ≤ gd ∧ gd ≤ gregorian_month_days gy gm) :
    jalali_to_gregorian (gregorian_to_jalali gy gm gd).1
        (gregorian_to_jalali gy gm gd).2.1 (gregorian_to_jalali gy gm gd).2.2
      = (gy, gm, gd) := by
  have hy' : ((gy - lo).toNat : ℤ) = gy - lo := Int.toNat_of_nonneg (by omega)
  have hm' : ((gm - 1).toNat : ℤ) = gm - 1 := Int.toNat_of_nonneg (by omega)
  have hd' : ((gd - 1).toNat : ℤ) = gd - 1 := Int.toNat_of_nonneg (by omega)
  have h1 := checkYears_ok lo n hchunk (gy - lo).toNat (by omega)
  have h2 := checkMonths_ok _ 12 h1 (gm - 1).toNat (by omega)
  have h3 := checkDays_ok _ _ _ h2 (gd - 1).toNat ?_
  · rw [hy'] at h3
    rw [hm'] at h3
    rw [hd'] at h3
    rw [show lo + (gy - lo) = gy by ring] at h3
    rw [show gm - 1 + 1 = gm by ring] at h3
    rw [show gd - 1 + 1 = gd by ring] at h3
    simp only [roundTripOK] at h3
    exact of_decide_eq_true h3
  · rw [hy', show lo + (gy - lo) = gy by ring, hm',
      show gm - 1 + 1 = gm by ring]
    omega

/-- C7.  For every valid Gregorian date in the supported range (years
2012-2041), converting to the civil (Jalali) calendar and back is the
identity. -/
theorem c7_roundtrip_spec (gy gm gd : ℤ)
    (hy : 2012 ≤ gy ∧ gy ≤ 2041) (hm : 1 ≤ gm ∧ gm ≤ 12)
    (hd : 1 ≤ gd ∧ gd ≤ gregorian_month_days gy gm) :
    jalali_to_gregorian (gregorian_to_jalali gy gm gd).1
        (gregorian_to_jalali gy gm gd).2.1 (gregorian_to_jalali gy gm gd).2.2
      = (gy, gm, gd) := by
  by_cases h1 : gy < 2018
  · exact roundtrip_of_chunk 2012 6 calendarChunk1 gy gm gd ⟨by omega, by omega⟩ hm hd
  by_cases h2 : gy < 2024
  · exact roundtrip_of_chunk 2018 6 calendarChunk2 gy gm gd ⟨by omega, by omega⟩ hm hd
  by_cases h3 : gy < 2030
  · exact roundtrip_of_chunk 2024 6 calendarChunk3 gy gm gd ⟨by omega, by omega⟩ hm hd
  by_cases h4 : gy < 2036
  · exact roundtrip_of_chunk 2030 6 calendarChunk4 gy gm gd ⟨by omega, by omega⟩ hm hd
  exact roundtrip_of_chunk 2036 6 calendarChunk5 gy gm gd ⟨by omega, by omega⟩ hm hd

/-- Witness for C7 at 2012-02-29 (a leap day). -/
theorem c7_roundtrip_spec_witness :
    ((2012 : ℤ) ≤ 2012 ∧ (2012 : ℤ) ≤ 2041)
    ∧ ((1 : ℤ) ≤ 2 ∧ (2 : ℤ) ≤ 12)
    ∧ ((1 : ℤ) ≤ 29 ∧ (29 : ℤ) ≤ gregorian_month_days 2012 2)
    ∧ jalali_to_gregorian (gregorian_to_jalali 2012 2 29).1
        (gregorian_to_jalali 2012 2 29).2.1 (gregorian_to_jalali 2012 2 29).2.2
      = (2012, 2, 29) :=
  ⟨⟨by decide, by decide⟩, ⟨by decide, by decide⟩, ⟨by decide, by decide⟩,
    c7_roundtrip_spec 2012 2 29 ⟨by decide, by decide⟩ ⟨by decide, by decide⟩
      ⟨by decide, by decide⟩⟩
